import Mathlib

set_option maxHeartbeats 1000000

/-!
Verification development for the unified message model of the repository:
usage normalization (Gemini token records), the Gemini session-detail
converter, the message grouping engine (sub-agent groups and technical
aggregation), the billing ledger aggregator, the persisted-history kind
filter, and the session-load race guard.

Conventions of the shallow embedding:
- optional JavaScript fields become `Option`;
- JavaScript truthiness on strings (the empty string is falsy) is modelled
  explicitly at each use site;
- JavaScript numbers carrying token counts are modelled as `Int`;
- external collaborators that the source imports (the token extractor,
  the pricing function, `Date.parse`) are passed as parameters.
-/

namespace AnyCode

/-- Lower-casing, extensionally `String.toLower` (which is
`String.map Char.toLower`), written by structural recursion over the
character list so that concrete instances evaluate inside the kernel. -/
def strToLower (s : String) : String :=
  String.mk (s.data.map Char.toLower)

/-- Whitespace trimming, written by structural recursion over the
character list so that concrete instances evaluate inside the kernel. -/
def strTrim (s : String) : String :=
  String.mk (((s.data.dropWhile Char.isWhitespace).reverse.dropWhile Char.isWhitespace).reverse)

/-- A JavaScript value as seen by the numeric coercion `toNumber` of the
Gemini usage extractor: a finite number, a non-empty string parsing to a
finite number, a non-numeric or empty string, an absent field, or any
other value. -/
inductive JVal
  | num (n : Int)
  | numStr (n : Int)
  | badStr
  | absent
  | other
deriving DecidableEq

/-- Embeds `toNumber`: a field is accepted if it is a finite number, or a
non-empty string that parses to a finite number; otherwise `null`. -/
def toNumber : JVal → Option Int
  | .num n => some n
  | .numStr n => some n
  | _ => none

/-- The canonical usage record produced by `extractGeminiUsage`
(`GeminiUsage` in the source). -/
structure GeminiUsage where
  input_tokens : Int
  output_tokens : Int
  cached_input_tokens : Option Int := none
deriving DecidableEq

/-- A raw Gemini `tokens` object, with every field name the extractor
probes.  Fields not present in a given record are `.absent`. -/
structure GeminiTokensRaw where
  input_tokens : JVal := .absent
  output_tokens : JVal := .absent
  prompt : JVal := .absent
  promptTokenCount : JVal := .absent
  prompt_token_count : JVal := .absent
  candidates : JVal := .absent
  candidatesTokenCount : JVal := .absent
  candidates_token_count : JVal := .absent
  thoughts : JVal := .absent
  thoughtsTokenCount : JVal := .absent
  thoughts_token_count : JVal := .absent
  tool : JVal := .absent
  toolUsePromptTokenCount : JVal := .absent
  tool_use_prompt_token_count : JVal := .absent
  cached : JVal := .absent
  cachedContentTokenCount : JVal := .absent
  cached_content_token_count : JVal := .absent
deriving DecidableEq

/-- The resolved `prompt` component (`toNumber(t.prompt) ?? toNumber(t.promptTokenCount) ?? toNumber(t.prompt_token_count)`). -/
def geminiPrompt (t : GeminiTokensRaw) : Option Int :=
  toNumber t.prompt <|> toNumber t.promptTokenCount <|> toNumber t.prompt_token_count

/-- The resolved `candidates` component. -/
def geminiCandidates (t : GeminiTokensRaw) : Option Int :=
  toNumber t.candidates <|> toNumber t.candidatesTokenCount <|> toNumber t.candidates_token_count

/-- The resolved `thoughts` component, defaulting to `0`. -/
def geminiThoughts (t : GeminiTokensRaw) : Int :=
  (toNumber t.thoughts <|> toNumber t.thoughtsTokenCount <|> toNumber t.thoughts_token_count).getD 0

/-- The resolved `tool` component, defaulting to `0`. -/
def geminiTool (t : GeminiTokensRaw) : Int :=
  (toNumber t.tool <|> toNumber t.toolUsePromptTokenCount <|> toNumber t.tool_use_prompt_token_count).getD 0

/-- The resolved `cached` component, defaulting to `0`. -/
def geminiCached (t : GeminiTokensRaw) : Int :=
  (toNumber t.cached <|> toNumber t.cachedContentTokenCount <|> toNumber t.cached_content_token_count).getD 0

/-- `input_tokens = inputFromStats ?? (prompt !== null ? prompt + tool : null)`. -/
def geminiInputSignal (t : GeminiTokensRaw) : Option Int :=
  toNumber t.input_tokens <|> (geminiPrompt t).map (· + geminiTool t)

/-- `output_tokens = outputFromStats ?? (candidates !== null ? candidates + thoughts : null)`. -/
def geminiOutputSignal (t : GeminiTokensRaw) : Option Int :=
  toNumber t.output_tokens <|> (geminiCandidates t).map (· + geminiThoughts t)

/-- Embeds `extractGeminiUsage` from the Gemini converter module: returns
`null` when every signal is non-positive, otherwise clamps the two signals
at `0` and attaches `cached_input_tokens` only when `cached > 0`. -/
def extractGeminiUsage (t : GeminiTokensRaw) : Option GeminiUsage :=
  if (geminiInputSignal t).getD 0 ≤ 0 ∧ (geminiOutputSignal t).getD 0 ≤ 0 ∧ geminiCached t ≤ 0 then
    none
  else
    some { input_tokens := max ((geminiInputSignal t).getD 0) 0
           output_tokens := max ((geminiOutputSignal t).getD 0) 0
           cached_input_tokens := if geminiCached t > 0 then some (geminiCached t) else none }

/-- The `input` object of a `tool_use` content block.  The grouping code
reads only `input?.subagent_type`; the rest of the arguments is carried
opaquely as `rawArgs`. -/
structure ToolInput where
  subagent_type : Option String := none
  rawArgs : String := ""
deriving DecidableEq

/-- One content block of a canonical message (`text`, `tool_use`,
`tool_result`, `thinking`, ...). -/
structure ContentItem where
  ctype : String
  text : Option String := none
  id : Option String := none
  name : Option String := none
  input : Option ToolInput := none
  tool_use_id : Option String := none
  content : Option String := none
  is_error : Option Bool := none
deriving DecidableEq

/-- The nested `message` body of a canonical message.  `content` is
`some items` when the field holds an array, `none` otherwise. -/
structure MsgBody where
  role : Option String := none
  content : Option (List ContentItem) := none
  id : Option String := none
  model : Option String := none
  timestamp : Option String := none
deriving DecidableEq

/-- The `codexMetadata` side channel probed by the billing aggregator. -/
structure CodexMeta where
  codexItemType : Option String := none
  model : Option String := none
deriving DecidableEq

/-- The canonical unified message (`ClaudeStreamMessage`).  `mtype` embeds
the `type` field; a missing `type` is `none`.  `geminiProvider` embeds
`geminiMetadata?.provider`. -/
structure ClaudeMsg where
  mtype : Option String := none
  subtype : Option String := none
  message : Option MsgBody := none
  usage : Option GeminiUsage := none
  parent_tool_use_id : Option String := none
  isSidechain : Bool := false
  engine : Option String := none
  model : Option String := none
  timestamp : Option String := none
  id : Option String := none
  uuid : Option String := none
  receivedAt : Option String := none
  sentAt : Option String := none
  codexMetadata : Option CodexMeta := none
  geminiProvider : Option String := none
deriving DecidableEq

/-- The value of the `result` field of a Gemini tool call, in the shapes
the converter distinguishes: a string; a non-string non-array value
(carried as its JSON serialization); an array whose first element carries
`functionResponse.response.output` (a string); or any other array (carried
as its JSON serialization). -/
inductive GemResultVal
  | vstr (s : String)
  | vjson (stringified : String)
  | varrFn (output : String) (stringified : String)
  | varrPlain (stringified : String)
deriving DecidableEq

/-- A tool call inside a Gemini model turn. -/
structure GemToolCall where
  id : String
  name : String
  args : ToolInput := {}
  result : Option GemResultVal := none
  status : Option String := none
  timestamp : Option String := none
  resultDisplay : Option String := none
deriving DecidableEq

/-- One entry of `GeminiSessionDetail.messages`.  `mtype` embeds the
`type` field (`"user"` or `"gemini"`). -/
structure GeminiDetailMsg where
  mtype : String
  content : String
  toolCalls : Option (List GemToolCall) := none
  model : Option String := none
  tokens : Option GeminiTokensRaw := none
  timestamp : String := ""
deriving DecidableEq

/-- A Gemini session detail record (only the `messages` field is read by
the converter). -/
structure GeminiSessionDetail where
  messages : List GeminiDetailMsg
deriving DecidableEq

/-- The `resultContent` the converter falls back to when `resultDisplay`
is falsy: the actual output data, preferring the structured
`functionResponse.response.output` of an array-shaped result; non-string
data is carried as its JSON serialization. -/
def geminiResultContentString : GemResultVal → String
  | .vstr s => s
  | .vjson j => j
  | .varrFn o _ => o
  | .varrPlain j => j

/-- The content of a synthesized `tool_result` block:
`toolCall.resultDisplay || (typeof resultContent === "string" ? resultContent : JSON.stringify(resultContent))`.
The empty string is falsy, so a blank display summary falls through. -/
def geminiToolResultContent (tc : GemToolCall) (rv : GemResultVal) : String :=
  match tc.resultDisplay with
  | some d => if d = "" then geminiResultContentString rv else d
  | none => geminiResultContentString rv

/-- The synthesized `user`-kind `tool_result` message for one Gemini tool
call that carries a result.  `toolCall.timestamp || msg.timestamp`: a
missing or empty call timestamp falls back to the turn timestamp. -/
def convertGeminiToolResultMsg (turnTimestamp : String) (tc : GemToolCall) (rv : GemResultVal) :
    ClaudeMsg :=
  { mtype := some "user"
    message := some { content := some [{ ctype := "tool_result"
                                         tool_use_id := some tc.id
                                         content := some (geminiToolResultContent tc rv)
                                         is_error := some (tc.status == some "error") }]
                      role := some "user" }
    timestamp := some (match tc.timestamp with
                       | some s => if s = "" then turnTimestamp else s
                       | none => turnTimestamp)
    engine := some "gemini" }

/-- Converts one entry of a Gemini session detail into the canonical
messages it contributes, in emission order: for a user turn, one user text
message; for a model turn, the synthesized `tool_result` user messages of
the calls that carry results (in call order), then the single assistant
message holding every `tool_use` block followed by the narrative text
block (or one empty text block when the turn is empty), then a
`result`-kind message whenever the turn carries extractable usage. -/
def convertGeminiTurn (msg : GeminiDetailMsg) : List ClaudeMsg :=
  if msg.mtype = "user" then
    [{ mtype := some "user"
       message := some { content := some (if msg.content = "" then []
                                          else [{ ctype := "text", text := some msg.content }])
                         role := some "user" }
       timestamp := some msg.timestamp
       engine := some "gemini" }]
  else
    let toolCalls := msg.toolCalls.getD []
    let assistantToolItems : List ContentItem := toolCalls.map fun tc =>
      { ctype := "tool_use", id := some tc.id, name := some tc.name, input := some tc.args }
    let toolResultMsgs : List ClaudeMsg := toolCalls.filterMap fun tc =>
      (tc.result).map fun rv => convertGeminiToolResultMsg msg.timestamp tc rv
    let assistantContent := assistantToolItems ++
      (if msg.content = "" then [] else [{ ctype := "text", text := some msg.content }])
    let assistantMsg : ClaudeMsg :=
      { mtype := some "assistant"
        message := some { content := some (if assistantContent = []
                                           then [{ ctype := "text", text := some "" }]
                                           else assistantContent)
                          role := some "assistant" }
        timestamp := some msg.timestamp
        engine := some "gemini"
        model := msg.model }
    let resultMsgs : List ClaudeMsg :=
      match msg.tokens.bind extractGeminiUsage with
      | some u => [{ mtype := some "result", subtype := some "success", usage := some u
                     timestamp := some msg.timestamp, engine := some "gemini", model := msg.model }]
      | none => []
    toolResultMsgs ++ [assistantMsg] ++ resultMsgs

/-- Embeds `convertGeminiSessionDetailToClaudeMessages`. -/
def convertGeminiSessionDetailToClaudeMessages (detail : GeminiSessionDetail) : List ClaudeMsg :=
  detail.messages.flatMap convertGeminiTurn

/-- An item spawning a sub-agent: a `tool_use` block whose tool name is
`task` case-insensitively. -/
def isTaskToolUseItem (item : ContentItem) : Bool :=
  item.ctype == "tool_use" &&
    (match item.name with
     | some n => strToLower n == "task"
     | none => false)

/-- Embeds `hasTaskToolCall`. -/
def hasTaskToolCall (message : ClaudeMsg) : Bool :=
  message.mtype == some "assistant" &&
    (match message.message with
     | some body =>
       match body.content with
       | some items => items.any isTaskToolUseItem
       | none => false
     | none => false)

/-- Embeds `extractTaskToolUseIds`: the ids of the Task `tool_use` blocks,
with falsy (missing or empty) ids dropped by `.filter(Boolean)`. -/
def extractTaskToolUseIds (message : ClaudeMsg) : List String :=
  if !hasTaskToolCall message then []
  else
    match message.message with
    | some body =>
      match body.content with
      | some items =>
        (items.filter isTaskToolUseItem).filterMap fun item =>
          match item.id with
          | some s => if s = "" then none else some s
          | none => none
      | none => []
    | none => []

/-- `Map.set` on an association list: replaces the value in place when the
key exists, appends at the end otherwise (JavaScript Map insertion
order). -/
def setAssoc {α : Type} (key : String) (val : α) : List (String × α) → List (String × α)
  | [] => [(key, val)]
  | (k, v) :: rest => if k = key then (key, val) :: rest else (k, v) :: setAssoc key val rest

/-- `Map.get` on an association list. -/
def getAssoc {α : Type} (key : String) : List (String × α) → Option α
  | [] => none
  | (k, v) :: rest => if k = key then some v else getAssoc key rest

/-- Embeds `extractTaskToolDetails`: maps each truthy Task tool id to its
`input?.subagent_type`. -/
def extractTaskToolDetails (message : ClaudeMsg) : List (String × Option String) :=
  if !hasTaskToolCall message then []
  else
    match message.message with
    | some body =>
      match body.content with
      | some items =>
        (items.filter isTaskToolUseItem).foldl
          (fun acc item =>
            match item.id with
            | some s => if s = "" then acc
                        else setAssoc s (item.input.bind (·.subagent_type)) acc
            | none => acc)
          []
      | none => []
    | none => []

/-- Embeds `getParentToolUseId`: `message.parent_tool_use_id || null`
(empty string is falsy). -/
def getParentToolUseId (message : ClaudeMsg) : Option String :=
  match message.parent_tool_use_id with
  | some s => if s = "" then none else some s
  | none => none

/-- Embeds `isSubagentMessage`: a truthy `parent_tool_use_id` or a truthy
`isSidechain` flag. -/
def isSubagentMessage (message : ClaudeMsg) : Bool :=
  (match message.parent_tool_use_id with
   | some s => s != ""
   | none => false) || message.isSidechain

/-- The two technical aggregation kinds. -/
inductive TechType
  | tool
  | thinking
deriving DecidableEq

/-- The content blocks of a message, when the nested content is an array. -/
def contentItems (m : ClaudeMsg) : Option (List ContentItem) :=
  m.message.bind (·.content)

/-- A non-empty narrative text block:
`item.type === "text" && item.text && item.text.trim().length > 0`. -/
def itemIsNarrativeText (it : ContentItem) : Bool :=
  it.ctype == "text" &&
    (match it.text with
     | some t => t != "" && strTrim t != ""
     | none => false)

/-- Whether a message carries a non-empty narrative text block. -/
def msgHasNarrativeText (m : ClaudeMsg) : Bool :=
  match contentItems m with
  | some items => items.any itemIsNarrativeText
  | none => false

/-- Whether a message carries a reasoning (`thinking`) content block. -/
def msgHasThinkingContent (m : ClaudeMsg) : Bool :=
  match contentItems m with
  | some items => items.any (·.ctype == "thinking")
  | none => false

/-- Whether a message carries tool activity (`tool_use` or `tool_result`)
content. -/
def msgHasToolContent (m : ClaudeMsg) : Bool :=
  match contentItems m with
  | some items => items.any fun it => it.ctype == "tool_use" || it.ctype == "tool_result"
  | none => false

/-- Embeds `getTechnicalMessageType`: `thinking`-kind records classify as
`thinking` outright; assistant records with array content classify from
their flags (narrative text, or mixed reasoning and tool content, makes a
message non-aggregable); everything else is non-aggregable. -/
def getTechnicalMessageType (message : ClaudeMsg) : Option TechType :=
  if message.mtype = some "thinking" then some .thinking
  else if message.mtype ≠ some "assistant" then none
  else
    match contentItems message with
    | none => none
    | some _ =>
      if msgHasNarrativeText message then none
      else if msgHasThinkingContent message && msgHasToolContent message then none
      else if msgHasThinkingContent message then some .thinking
      else if msgHasToolContent message then some .tool
      else none

/-- Embeds `SubagentGroup`. -/
structure SubagentGroup where
  id : String
  taskMessage : ClaudeMsg
  taskToolUseId : String
  subagentMessages : List ClaudeMsg
  startIndex : Nat
  endIndex : Nat
  subagentType : Option String := none
deriving DecidableEq

/-- Embeds `MessageGroup`: the three node kinds of the grouped output. -/
inductive MessageGroup
  | normal (message : ClaudeMsg) (index : Nat)
  | subagent (group : SubagentGroup)
  | aggregated (messages : List ClaudeMsg) (index : Nat)
deriving DecidableEq

/-- Pass 1: `taskToolUseMap`, mapping each Task tool id to its spawning
message and index (later spawns of the same id overwrite). -/
def buildTaskMap (enumMsgs : List (Nat × ClaudeMsg)) : List (String × (ClaudeMsg × Nat)) :=
  enumMsgs.foldl
    (fun acc p =>
      (extractTaskToolUseIds p.2).foldl (fun acc2 tid => setAssoc tid (p.2, p.1) acc2) acc)
    []

/-- Pass 1: `taskSubagentTypes`, recording the sub-agent type annotation
of a spawn when it is a truthy string. -/
def buildTaskSubagentTypes (enumMsgs : List (Nat × ClaudeMsg)) : List (String × String) :=
  enumMsgs.foldl
    (fun acc p =>
      let details := extractTaskToolDetails p.2
      (extractTaskToolUseIds p.2).foldl
        (fun acc2 tid =>
          match getAssoc tid details with
          | some (some st) => if st = "" then acc2 else setAssoc tid st acc2
          | _ => acc2)
        acc)
    []

/-- Pass 2 body: scan the entire remaining sequence after a spawn and
collect every message whose parent id matches, preserving order; also the
maximal index touched (the spawn index when nothing matched). -/
def collectSubagentMessages (msgs : List ClaudeMsg) (taskIndex : Nat) (taskId : String) :
    List ClaudeMsg × Nat :=
  let matched := (msgs.enum.drop (taskIndex + 1)).filter
    fun p => getParentToolUseId p.2 == some taskId
  (matched.map (·.2), matched.foldl (fun mx p => max mx p.1) taskIndex)

/-- Pass 2: `subagentGroups`; a spawn with zero attributed descendants
yields no group. -/
def buildSubagentGroups (msgs : List ClaudeMsg) (taskMap : List (String × (ClaudeMsg × Nat)))
    (subTypes : List (String × String)) : List (String × SubagentGroup) :=
  taskMap.foldl
    (fun acc p =>
      let collected := collectSubagentMessages msgs p.2.2 p.1
      if collected.1.length > 0 then
        setAssoc p.1
          { id := p.1, taskMessage := p.2.1, taskToolUseId := p.1
            subagentMessages := collected.1, startIndex := p.2.2, endIndex := collected.2
            subagentType := getAssoc p.1 subTypes }
          acc
      else acc)
    []

/-- One step of the spawn-emission fold of pass 3: a task id whose group
exists and was not yet added contributes a sub-agent node and enters the
`addedTaskGroups` set. -/
def spawnStep (subGroups : List (String × SubagentGroup))
    (st : List MessageGroup × List String) (tid : String) :
    List MessageGroup × List String :=
  match getAssoc tid subGroups with
  | some g => if st.2.contains tid then st else (st.1 ++ [.subagent g], tid :: st.2)
  | none => st

/-- Pass 3: build the intermediate sequence.  Messages attributed to an
emitted group are skipped; at a spawning message, one sub-agent node per
not-yet-added group is emitted, plus the message itself as a normal node
only when none of its spawns produced a group; everything else is a
normal node.  `added` threads the `addedTaskGroups` set. -/
def pass3 (subGroups : List (String × SubagentGroup)) :
    List (Nat × ClaudeMsg) → List String → List MessageGroup
  | [], _ => []
  | (i, m) :: rest, added =>
    let skip := match getParentToolUseId m with
      | some pid => (getAssoc pid subGroups).isSome
      | none => false
    if skip then pass3 subGroups rest added
    else
      let taskIds := extractTaskToolUseIds m
      if taskIds.isEmpty then .normal m i :: pass3 subGroups rest added
      else
        let stepped := taskIds.foldl (spawnStep subGroups) ([], added)
        let hasAny := taskIds.any fun tid => (getAssoc tid subGroups).isSome
        (stepped.1 ++ (if hasAny then [] else [.normal m i])) ++ pass3 subGroups rest stepped.2

/-- Closing the open aggregate, if any. -/
def flushAgg : Option (List ClaudeMsg × Nat × TechType) → List MessageGroup
  | some (ms, i, _) => [.aggregated ms i]
  | none => []

/-- Pass 4: compact runs of adjacent technical messages of one kind.  A
sub-agent node closes any open aggregate; a classified message extends an
open aggregate of its kind or closes one of the other kind; a
non-aggregable message closes the open aggregate and passes through; the
final open aggregate is closed at end of sequence. -/
def pass4 : Option (List ClaudeMsg × Nat × TechType) → List MessageGroup → List MessageGroup
  | cur, [] => flushAgg cur
  | cur, .subagent g :: rest => flushAgg cur ++ (.subagent g :: pass4 none rest)
  | cur, .normal m i :: rest =>
    (match getTechnicalMessageType m with
     | some ty =>
       match cur with
       | some (ms, si, cty) =>
         if cty = ty then pass4 (some (ms ++ [m], si, cty)) rest
         else .aggregated ms si :: pass4 (some ([m], i, ty)) rest
       | none => pass4 (some ([m], i, ty)) rest
     | none => flushAgg cur ++ (.normal m i :: pass4 none rest))
  | cur, .aggregated ms i :: rest => .aggregated ms i :: pass4 cur rest

/-- Invariant of the open aggregate during pass 4: every collected
message classifies to the aggregate kind. -/
def aggOK : Option (List ClaudeMsg × Nat × TechType) → Prop
  | some (ms, _, ty) => ∀ m ∈ ms, getTechnicalMessageType m = some ty
  | none => True

/-- Embeds `groupMessages`: the four passes. -/
def groupMessages (messages : List ClaudeMsg) : List MessageGroup :=
  let enumMsgs := messages.enum
  let taskMap := buildTaskMap enumMsgs
  let subTypes := buildTaskSubagentTypes enumMsgs
  let subGroups := buildSubagentGroups messages taskMap subTypes
  pass4 none (pass3 subGroups enumMsgs [])

/-- Embeds `shouldHideMessage`: a sub-agent message is suppressible iff
its parent id has an emitted sub-agent group. -/
def shouldHideMessage (message : ClaudeMsg) (groups : List MessageGroup) : Bool :=
  if isSubagentMessage message then
    match getParentToolUseId message with
    | some pid =>
      groups.any fun g =>
        match g with
        | .subagent grp => grp.taskToolUseId == pid
        | _ => false
    | none => false
  else false

/-- Embeds `StandardizedTokenUsage` (the external token extractor's output
shape). -/
structure StdTokens where
  input_tokens : Int := 0
  output_tokens : Int := 0
  cache_creation_tokens : Int := 0
  cache_read_tokens : Int := 0
deriving DecidableEq

/-- Embeds `calculateTotalTokens`. -/
def calculateTotalTokens (tokens : StdTokens) : Int :=
  tokens.input_tokens + tokens.output_tokens +
    tokens.cache_creation_tokens + tokens.cache_read_tokens

/-- Embeds `BillingEvent`, merged with the `MutableBillingEvent` extras
(`totalTokenCount`, `order`) that the aggregator keeps on every event. -/
structure BillingEvent where
  key : String
  tokens : StdTokens
  model : String
  cost : Int
  timestamp : Option String := none
  timestampMs : Option Int := none
  message : ClaudeMsg
  totalTokenCount : Int
  order : Nat
deriving DecidableEq

/-- The fallback chain of `getEngineType` when the `engine` field is
falsy: `codexMetadata` present, then `geminiMetadata?.provider`, then
`claude`. -/
def engineTypeFallback (message : ClaudeMsg) : String :=
  if message.codexMetadata.isSome then "codex"
  else if message.geminiProvider = some "gemini" then "gemini"
  else "claude"

/-- Embeds `getEngineType` (the empty string is falsy). -/
def getEngineType (message : ClaudeMsg) : String :=
  match message.engine with
  | some e => if e = "" then engineTypeFallback message else e
  | none => engineTypeFallback message

/-- Keeps a candidate key component only when it is a string with
non-blank trim. -/
def nonBlank : Option String → Option String
  | some s => if strTrim s = "" then none else some s
  | none => none

/-- Embeds `getBillingKey`: nested message id, then top-level id, then
uuid, then `timestamp ?? receivedAt`, then the scan index as a last
resort. -/
def getBillingKey (message : ClaudeMsg) (index : Nat) : String :=
  match nonBlank (message.message.bind (·.id)) with
  | some s => "message:" ++ s
  | none =>
    match nonBlank message.id with
    | some s => "message:" ++ s
    | none =>
      match nonBlank message.uuid with
      | some s => "uuid:" ++ s
      | none =>
        match nonBlank (message.timestamp <|> message.receivedAt) with
        | some s => "time:" ++ s
        | none => "index:" ++ toString index

/-- The candidate scan of `extractTimestamp`: the first non-blank string
that `Date.parse` accepts wins. -/
def firstParsedTimestamp (parseDate : String → Option Int) :
    List (Option String) → Option String × Option Int
  | [] => (none, none)
  | c :: rest =>
    match c with
    | some s =>
      if strTrim s = "" then firstParsedTimestamp parseDate rest
      else
        match parseDate s with
        | some ms => (some s, some ms)
        | none => firstParsedTimestamp parseDate rest
    | none => firstParsedTimestamp parseDate rest

/-- Embeds `extractTimestamp`, with `Date.parse` passed as a parameter
(`none` models `NaN`). -/
def extractTimestamp (parseDate : String → Option Int) (message : ClaudeMsg) :
    Option String × Option Int :=
  firstParsedTimestamp parseDate
    [message.timestamp, message.receivedAt, message.sentAt, message.message.bind (·.timestamp)]

/-- The candidate scan of `getModelName`: the first non-blank string
candidate. -/
def firstNonBlankModel : List (Option String) → Option String
  | [] => none
  | c :: rest =>
    match c with
    | some s => if strTrim s = "" then firstNonBlankModel rest else some s
    | none => firstNonBlankModel rest

/-- Embeds `getModelName` with its engine-specific fallbacks. -/
def getModelName (message : ClaudeMsg) (engine : String) : String :=
  match firstNonBlankModel
      [message.model, message.message.bind (·.model), message.codexMetadata.bind (·.model)] with
  | some m => m
  | none =>
    if engine = "codex" then "codex-mini-latest"
    else if engine = "gemini" then "gemini-2.5-pro"
    else "claude-sonnet-4.5"

/-- The candidate billing event built for a billable message, before
dedup. -/
def mkBillingEvent (extract : ClaudeMsg → StdTokens) (parseDate : String → Option Int)
    (costFn : StdTokens → String → String → Int) (message : ClaudeMsg) (index : Nat) :
    BillingEvent :=
  let engine := getEngineType message
  let tokens := extract message
  let ts := extractTimestamp parseDate message
  let model := getModelName message engine
  { key := getBillingKey message index
    tokens := tokens
    model := model
    cost := costFn tokens model engine
    timestamp := ts.1
    timestampMs := ts.2
    message := message
    totalTokenCount := calculateTotalTokens tokens
    order := index }

/-- The insert-or-supersede rule of the event map: a candidate replaces
the event holding its key when it has strictly more total tokens, or
equal tokens and a timestamp (missing treated as `0`) at least as late;
otherwise the existing event survives.  A fresh key is appended at the
end (Map insertion order), a superseded key keeps its position. -/
def updateEvent (cand : BillingEvent) : List (String × BillingEvent) → List (String × BillingEvent)
  | [] => [(cand.key, cand)]
  | (k, e) :: rest =>
    if k = cand.key then
      if cand.totalTokenCount > e.totalTokenCount ∨
          (cand.totalTokenCount = e.totalTokenCount ∧
            e.timestampMs.getD 0 ≤ cand.timestampMs.getD 0) then
        (k, cand) :: rest
      else (k, e) :: rest
    else (k, e) :: updateEvent cand rest

/-- One step of the billing scan: engine-specific billability (Claude
assistant messages; Codex system messages carrying usage, excluding the
cumulative `thread_token_usage_updated` item subtype; Gemini result
messages carrying usage), the zero-total skip, then insert-or-supersede. -/
def processBillingMessage (extract : ClaudeMsg → StdTokens) (parseDate : String → Option Int)
    (costFn : StdTokens → String → String → Int)
    (acc : List (String × BillingEvent)) (index : Nat) (message : ClaudeMsg) :
    List (String × BillingEvent) :=
  let engine := getEngineType message
  if engine = "codex" ∧
      (message.codexMetadata.bind (·.codexItemType)) = some "thread_token_usage_updated" then
    acc
  else
    let isClaudeBillable := engine = "claude" ∧ message.mtype = some "assistant"
    let isCodexBillable := engine = "codex" ∧ message.mtype = some "system" ∧ message.usage.isSome
    let isGeminiBillable := engine = "gemini" ∧ message.mtype = some "result" ∧ message.usage.isSome
    if ¬(isClaudeBillable ∨ isCodexBillable ∨ isGeminiBillable) then acc
    else
      let cand := mkBillingEvent extract parseDate costFn message index
      if cand.totalTokenCount = 0 then acc
      else updateEvent cand acc

/-- The total preorder induced by the final-sort comparator of the
aggregator, in the cases where the comparator is consistent: ascending
timestamp when both sides have one, a timestamped event before a
timestamp-less one, and ascending scan order between two timestamp-less
events.  (For two events with equal timestamps the JavaScript comparator
is inconsistent, and any stable realization keeps them adjacent; this
relation holds in both directions there.) -/
def billingLE (a b : BillingEvent) : Prop :=
  match a.timestampMs, b.timestampMs with
  | some x, some y => x ≤ y
  | some _, none => True
  | none, some _ => False
  | none, none => a.order ≤ b.order

instance billingLEDecidable : DecidableRel billingLE := fun a b => by
  unfold billingLE
  rcases a.timestampMs with _ | x <;> rcases b.timestampMs with _ | y <;>
    simp <;> infer_instance

instance billingLETotal : IsTotal BillingEvent billingLE where
  total a b := by
    unfold billingLE
    rcases a.timestampMs with _ | x <;> rcases b.timestampMs with _ | y <;> simp
    · exact Nat.le_total a.order b.order
    · exact Int.le_total x y

instance billingLETrans : IsTrans BillingEvent billingLE where
  trans a b c hab hbc := by
    unfold billingLE at *
    rcases ha : a.timestampMs with _ | x <;> rcases hb : b.timestampMs with _ | y <;>
      rcases hc : c.timestampMs with _ | z <;> simp_all
    · omega
    · omega

/-- The ordering the specification claims of the surviving event list:
ascending by resolved timestamp when both sides have one; an event with a
timestamp always before one without; among two timestamp-less events, the
scan order.  (Stated separately from `billingLE`, which is derived from
the source comparator.) -/
def billingOrderSpec (a b : BillingEvent) : Prop :=
  match a.timestampMs, b.timestampMs with
  | some x, some y => x ≤ y
  | some _, none => True
  | none, some _ => False
  | none, none => a.order ≤ b.order

/-- Embeds `SessionCostTotals`. -/
structure SessionCostTotals where
  totalCost : Int := 0
  totalTokens : Int := 0
  inputTokens : Int := 0
  outputTokens : Int := 0
  cacheReadTokens : Int := 0
  cacheWriteTokens : Int := 0
deriving DecidableEq

/-- Embeds `SessionCostAggregation`. -/
structure SessionCostAggregation where
  totals : SessionCostTotals
  events : List BillingEvent
  assistantMessageCount : Nat
  firstEventTimestampMs : Option Int := none
  lastEventTimestampMs : Option Int := none
deriving DecidableEq

/-- Embeds `aggregateSessionCost`.  External collaborators are
parameters: `extract` is `tokenExtractor.extract`, `parseDate` is
`Date.parse` (returning `none` for `NaN`), `costFn` is the pricing
function.  The final sort is realized as a stable insertion sort by
`billingLE`, the preorder the JavaScript comparator induces. -/
def aggregateSessionCost (extract : ClaudeMsg → StdTokens) (parseDate : String → Option Int)
    (costFn : StdTokens → String → String → Int) (messages : List ClaudeMsg) :
    SessionCostAggregation :=
  let eventMap := messages.enum.foldl
    (fun acc p => processBillingMessage extract parseDate costFn acc p.1 p.2) []
  let events := List.insertionSort billingLE (eventMap.map (·.2))
  let totals := events.foldl
    (fun t e =>
      { totalCost := t.totalCost + e.cost
        inputTokens := t.inputTokens + e.tokens.input_tokens
        outputTokens := t.outputTokens + e.tokens.output_tokens
        cacheReadTokens := t.cacheReadTokens + e.tokens.cache_read_tokens
        cacheWriteTokens := t.cacheWriteTokens + e.tokens.cache_creation_tokens
        totalTokens := t.totalTokens + calculateTotalTokens e.tokens })
    {}
  let tsVals := events.filterMap (·.timestampMs)
  { totals := totals
    events := events
    assistantMessageCount := events.length
    firstEventTimestampMs := match tsVals with
      | [] => none
      | v :: rest => some (rest.foldl min v)
    lastEventTimestampMs := match tsVals with
      | [] => none
      | v :: rest => some (rest.foldl max v) }

/-- The valid-kind list of the persisted-history loader. -/
def validHistoryTypes : List String :=
  ["user", "assistant", "system", "result", "summary", "thinking", "tool_use"]

/-- The history filter predicate: a record is dropped only when its kind
is a truthy string outside the valid list. -/
def keepHistoryEntry (entry : ClaudeMsg) : Bool :=
  match entry.mtype with
  | some t => if t ≠ "" ∧ t ∉ validHistoryTypes then false else true
  | none => true

/-- The kind default applied after filtering: `type: entry.type || "assistant"`. -/
def defaultHistoryType (entry : ClaudeMsg) : ClaudeMsg :=
  { entry with
    mtype := match entry.mtype with
      | some t => if t = "" then some "assistant" else some t
      | none => some "assistant" }

/-- Embeds the `loadedMessages` computation of `loadSessionHistory`
(filter unknown kinds, then default missing kinds). -/
def filterLoadedHistory (history : List ClaudeMsg) : List ClaudeMsg :=
  (history.filter keepHistoryEntry).map defaultHistoryType

/-- The state touched by `loadSessionHistory`: the latest-requested
session id token (`loadingSessionIdRef`), the UI state its completion
may mutate, and the Codex rate-limits side channel published through
`setCodexRateLimits` (the value itself comes from the external
`codexConverter` and is carried opaquely). -/
structure LifecycleState where
  loadingSessionId : Option String := none
  isLoading : Bool := false
  error : Option String := none
  messages : List ClaudeMsg := []
  rawJsonl : List String := []
  codexRateLimits : Option String := none
deriving DecidableEq

/-- The outcome of one history fetch.  A successful fetch of a Codex
session additionally carries the rate limits the external
`codexConverter` accumulated while converting the fetched events (the
converter is reset and driven between the fetch and the race-guard
check). -/
inductive LoadOutcome
  | success (msgs : List ClaudeMsg) (raw : List String)
  | successCodex (msgs : List ClaudeMsg) (raw : List String) (rateLimits : Option String)
  | notFound
  | failure
deriving DecidableEq

/-- The synchronous prefix of `loadSessionHistory(sessionId)`: record the
id in `loadingSessionIdRef`, `setIsLoading(true)`, `setError(null)`, then
suspend on the fetch. -/
def requestLoadSessionHistory (st : LifecycleState) (sessionId : String) : LifecycleState :=
  { st with loadingSessionId := some sessionId, isLoading := true, error := none }

/-- The completion of `loadSessionHistory(sessionId)`, run as one
event-loop turn after the fetch resolves.  For a successfully fetched
Codex session the source calls `setCodexRateLimits(codexConverter.getRateLimits())`
during conversion, BEFORE the race-guard check, so that mutation happens
even for a superseded completion.  Only then is the guard consulted: a
completion whose id no longer matches the latest request stops there;
otherwise success publishes the messages and raw log and clears loading,
not-found clears loading only (recoverable), and any other failure sets
the user-visible error. -/
def resolveLoadSessionHistory (st : LifecycleState) (sessionId : String)
    (outcome : LoadOutcome) : LifecycleState :=
  let st1 := match outcome with
    | .successCodex _ _ rl => { st with codexRateLimits := rl }
    | _ => st
  if st1.loadingSessionId ≠ some sessionId then st1
  else
    match outcome with
    | .success msgs raw =>
      { st1 with messages := msgs, rawJsonl := raw, isLoading := false }
    | .successCodex msgs raw _ =>
      { st1 with messages := msgs, rawJsonl := raw, isLoading := false }
    | .notFound => { st1 with isLoading := false }
    | .failure => { st1 with error := some "加载会话历史记录失败", isLoading := false }

/-! Concrete instances used by counterexamples and witnesses. -/

/-- A message flagged as sidechain with no parent tool use id. -/
def sideOnlyMsg : ClaudeMsg := { isSidechain := true }

/-- A Task spawn block with id `t1` and a sub-agent type annotation. -/
def cexSpawnItem : ContentItem :=
  { ctype := "tool_use", id := some "t1", name := some "Task"
    input := some { subagent_type := some "research" } }

/-- An assistant message spawning sub-agent `t1`. -/
def cexSpawnMsg : ClaudeMsg :=
  { mtype := some "assistant", message := some { content := some [cexSpawnItem] } }

/-- A narrative-text message attributed to spawn `t1`. -/
def cexChildMsg : ClaudeMsg :=
  { mtype := some "assistant"
    message := some { content := some [{ ctype := "text", text := some "hi" }] }
    parent_tool_use_id := some "t1" }

/-- A thinking-kind record whose content holds a non-empty text block. -/
def cexThinkMsg : ClaudeMsg :=
  { mtype := some "thinking"
    message := some { content := some [{ ctype := "text", text := some "ho" }] } }

/-- The Gemini session detail of the concrete scenario: one user turn and
one model turn with a `readFile` tool call carrying result data and
display summary `"ok"`, narrative text, and component token counts. -/
def geminiDetailC3 : GeminiSessionDetail :=
  { messages :=
    [ { mtype := "user", content := "fix bug", timestamp := "2024-01-01T00:00:00Z" }
    , { mtype := "gemini", content := "Fixed it", timestamp := "2024-01-01T00:00:05Z"
        toolCalls := some [ { id := "call1", name := "readFile"
                              result := some (.vstr "ok"), resultDisplay := some "ok" } ]
        tokens := some { prompt := .num 100, candidates := .num 20, cached := .num 0 } } ] }

/-- A tool call carrying both a structured functionResponse output and a
display summary. -/
def geminiToolCallBug : GemToolCall :=
  { id := "tb", name := "readFile"
    result := some (.varrFn "structured output" "[raw]")
    resultDisplay := some "summary" }

/-- A one-turn session detail around `geminiToolCallBug`. -/
def geminiDetailBug : GeminiSessionDetail :=
  { messages := [ { mtype := "gemini", content := ""
                    toolCalls := some [geminiToolCallBug], timestamp := "T" } ] }

/-- The two Task spawn blocks of the parallel-spawn scenario. -/
def spawn2Items : List ContentItem :=
  [ { ctype := "tool_use", id := some "t1", name := some "Task" }
  , { ctype := "tool_use", id := some "t2", name := some "Task" } ]

/-- An assistant message issuing two parallel Task spawns `t1` and `t2`. -/
def spawn2Msg : ClaudeMsg :=
  { mtype := some "assistant"
    message := some { content := some spawn2Items } }

/-- A plain sub-agent message attributed to `pid`, labelled for
distinctness. -/
def mkChildMsg (pid lbl : String) : ClaudeMsg :=
  { mtype := some "user"
    message := some { content := some [{ ctype := "text", text := some lbl }] }
    parent_tool_use_id := some pid }

/-- A billable Gemini result message sharing key `uuid:shared`. -/
def bilMsgA : ClaudeMsg :=
  { mtype := some "result", engine := some "gemini"
    usage := some { input_tokens := 0, output_tokens := 0 }
    uuid := some "shared", model := some "m1" }

/-- A second billable Gemini result message with the same key. -/
def bilMsgB : ClaudeMsg :=
  { mtype := some "result", engine := some "gemini"
    usage := some { input_tokens := 0, output_tokens := 0 }
    uuid := some "shared", model := some "m2" }

/-- A concrete token extractor for witnesses. -/
def extractEx : ClaudeMsg → StdTokens := fun m =>
  if m.model = some "m1" then { input_tokens := 5 } else { input_tokens := 3 }

/-- A concrete date parser for witnesses (nothing parses). -/
def parseDateEx : String → Option Int := fun _ => none

/-- A concrete pricing function for witnesses. -/
def costFnEx : StdTokens → String → String → Int := fun _ _ _ => 0

/-- A Gemini token record with only component counts. -/
def geminiTokensEx : GeminiTokensRaw :=
  { prompt := .num 100, candidates := .num 20, cached := .num 0 }

/-- A persisted-history record of kind `summary`. -/
def histSummaryMsg : ClaudeMsg := { mtype := some "summary" }

/-- A persisted-history record of kind `user`. -/
def histUserMsg : ClaudeMsg := { mtype := some "user" }

/-- A plain assistant message carrying only a narrative text block. -/
def plainTextMsg : ClaudeMsg :=
  { mtype := some "assistant"
    message := some { content := some [{ ctype := "text", text := some "hello" }] } }

/-- Five sub-agent messages interleaved across the two spawns: three for
`t1` and two for `t2`. -/
def c5Rest : List ClaudeMsg :=
  [ mkChildMsg "t1" "a", mkChildMsg "t2" "b", mkChildMsg "t1" "c"
  , mkChildMsg "t1" "d", mkChildMsg "t2" "e" ]

/-! Helper lemmas (shared; not tied to any single claim). -/

theorem defaultHistoryType_eq_self {e : ClaudeMsg} {t : String} (h : e.mtype = some t)
    (ht : t ≠ "") : defaultHistoryType e = e := by
  have hstep : defaultHistoryType e = { e with mtype := some t } := by
    unfold defaultHistoryType
    rw [h]
    simp [ht]
  rw [hstep]
  cases e
  simp_all

theorem keepHistoryEntry_of_valid {e : ClaudeMsg} {t : String} (h : e.mtype = some t)
    (hv : t ∈ validHistoryTypes) : keepHistoryEntry e = true := by
  unfold keepHistoryEntry
  rw [h]
  simp [hv]

theorem processBillingMessage_gemini (extract : ClaudeMsg → StdTokens)
    (parseDate : String → Option Int) (costFn : StdTokens → String → String → Int)
    (acc : List (String × BillingEvent)) (i : Nat) (m : ClaudeMsg)
    (he : getEngineType m = "gemini") (ht : m.mtype = some "result")
    (hu : m.usage.isSome = true) :
    processBillingMessage extract parseDate costFn acc i m =
      if (mkBillingEvent extract parseDate costFn m i).totalTokenCount = 0 then acc
      else updateEvent (mkBillingEvent extract parseDate costFn m i) acc := by
  simp only [processBillingMessage, he, ht, hu]
  simp

theorem updateEvent_cons_hit (cand e : BillingEvent) (k : String)
    (rest : List (String × BillingEvent)) (hk : k = cand.key) :
    updateEvent cand ((k, e) :: rest) =
      if cand.totalTokenCount > e.totalTokenCount ∨
          (cand.totalTokenCount = e.totalTokenCount ∧
            e.timestampMs.getD 0 ≤ cand.timestampMs.getD 0)
      then (k, cand) :: rest else (k, e) :: rest := by
  unfold updateEvent
  rw [if_pos hk]

theorem mem_keys_updateEvent {cand : BillingEvent} {acc : List (String × BillingEvent)}
    {x : String} :
    x ∈ (updateEvent cand acc).map Prod.fst ↔ x ∈ acc.map Prod.fst ∨ x = cand.key := by
  induction acc with
  | nil => simp [updateEvent]
  | cons p rest ih =>
    obtain ⟨k, e⟩ := p
    unfold updateEvent
    by_cases hk : k = cand.key
    · subst hk
      rw [if_pos rfl]
      split <;> simp <;> tauto
    · rw [if_neg hk]
      simp [ih]
      tauto

theorem updateEvent_nodup_keys (cand : BillingEvent) (acc : List (String × BillingEvent))
    (h : (acc.map Prod.fst).Nodup) : ((updateEvent cand acc).map Prod.fst).Nodup := by
  induction acc with
  | nil => simp [updateEvent]
  | cons p rest ih =>
    obtain ⟨k, e⟩ := p
    unfold updateEvent
    by_cases hk : k = cand.key
    · subst hk
      rw [if_pos rfl]
      split
      · simpa using h
      · exact h
    · rw [if_neg hk]
      simp only [List.map_cons] at h ⊢
      obtain ⟨hnotin, hrest⟩ := List.nodup_cons.mp h
      refine List.nodup_cons.mpr ⟨?_, ih hrest⟩
      intro hmem
      rcases mem_keys_updateEvent.mp hmem with h1 | h2
      · exact hnotin h1
      · exact hk h2

theorem updateEvent_keyfield {cand : BillingEvent} {acc : List (String × BillingEvent)}
    (hc : ∀ p ∈ acc, (p.2).key = p.1) :
    ∀ p ∈ updateEvent cand acc, (p.2).key = p.1 := by
  induction acc with
  | nil =>
    intro p hp
    simp [updateEvent] at hp
    subst hp
    rfl
  | cons q rest ih =>
    obtain ⟨k, e⟩ := q
    unfold updateEvent
    by_cases hk : k = cand.key
    · subst hk
      rw [if_pos rfl]
      split
      · intro p hp
        rcases List.mem_cons.mp hp with h1 | h2
        · subst h1; rfl
        · exact hc p (List.mem_cons_of_mem _ h2)
      · exact hc
    · rw [if_neg hk]
      intro p hp
      rcases List.mem_cons.mp hp with h1 | h2
      · subst h1
        exact hc (k, e) (List.mem_cons_self _ _)
      · exact ih (fun q hq => hc q (List.mem_cons_of_mem _ hq)) p h2

theorem processBillingMessage_preserves (extract : ClaudeMsg → StdTokens)
    (parseDate : String → Option Int) (costFn : StdTokens → String → String → Int)
    (i : Nat) (m : ClaudeMsg) {acc : List (String × BillingEvent)}
    (h1 : (acc.map Prod.fst).Nodup) (h2 : ∀ p ∈ acc, (p.2).key = p.1) :
    ((processBillingMessage extract parseDate costFn acc i m).map Prod.fst).Nodup ∧
    ∀ p ∈ processBillingMessage extract parseDate costFn acc i m, (p.2).key = p.1 := by
  simp only [processBillingMessage]
  split_ifs <;>
    first
      | exact ⟨h1, h2⟩
      | exact ⟨updateEvent_nodup_keys _ _ h1, updateEvent_keyfield h2⟩

theorem foldl_billing_preserves (extract : ClaudeMsg → StdTokens)
    (parseDate : String → Option Int) (costFn : StdTokens → String → String → Int) :
    ∀ (l : List (Nat × ClaudeMsg)) (acc : List (String × BillingEvent)),
    (acc.map Prod.fst).Nodup → (∀ p ∈ acc, (p.2).key = p.1) →
    ((l.foldl (fun a p => processBillingMessage extract parseDate costFn a p.1 p.2) acc).map
        Prod.fst).Nodup ∧
    ∀ p ∈ l.foldl (fun a p => processBillingMessage extract parseDate costFn a p.1 p.2) acc,
      (p.2).key = p.1
  | [], acc, h1, h2 => ⟨h1, h2⟩
  | q :: rest, acc, h1, h2 => by
    have hstep := processBillingMessage_preserves extract parseDate costFn q.1 q.2 h1 h2
    simpa using foldl_billing_preserves extract parseDate costFn rest _ hstep.1 hstep.2

theorem pairwise_key_of_nodup_fst :
    ∀ (acc : List (String × BillingEvent)),
    (acc.map Prod.fst).Nodup → (∀ p ∈ acc, (p.2).key = p.1) →
    (acc.map (·.2)).Pairwise (fun a b => a.key ≠ b.key)
  | [], _, _ => by simp
  | (k, e) :: rest, hnd, hkf => by
    simp only [List.map_cons] at hnd ⊢
    obtain ⟨hnotin, hrest⟩ := List.nodup_cons.mp hnd
    refine List.pairwise_cons.mpr
      ⟨?_, pairwise_key_of_nodup_fst rest hrest (fun p hp => hkf p (List.mem_cons_of_mem _ hp))⟩
    intro b hb
    obtain ⟨q, hq, rfl⟩ := List.mem_map.mp hb
    have hek : e.key = k := hkf (k, e) (List.mem_cons_self _ _)
    have hqk : (q.2).key = q.1 := hkf q (List.mem_cons_of_mem _ hq)
    rw [hek, hqk]
    intro hcontra
    exact hnotin (hcontra ▸ List.mem_map_of_mem Prod.fst hq)

theorem billing_keys_pairwise_ne (extract : ClaudeMsg → StdTokens)
    (parseDate : String → Option Int) (costFn : StdTokens → String → String → Int)
    (messages : List ClaudeMsg) :
    ((aggregateSessionCost extract parseDate costFn messages).events).Pairwise
      (fun a b => a.key ≠ b.key) := by
  have hfold := foldl_billing_preserves extract parseDate costFn messages.enum []
    (by simp) (by simp)
  have hp0 := pairwise_key_of_nodup_fst _ hfold.1 hfold.2
  have hperm := List.perm_insertionSort billingLE
    ((messages.enum.foldl
        (fun a p => processBillingMessage extract parseDate costFn a p.1 p.2) []).map (·.2))
  exact (List.Perm.pairwise_iff (fun h => Ne.symm h) hperm).mpr hp0

/-! Claim theorems. -/

/-- C10: a message whose `isSidechain` flag is true but whose
`parentToolUseId` is absent is never suppressed by `shouldHideMessage`,
for every grouping output, even though it counts as a sub-agent
message. -/
theorem sidechain_only_not_hidden (m : ClaudeMsg) (groups : List MessageGroup)
    (hside : m.isSidechain = true) (hparent : m.parent_tool_use_id = none) :
    shouldHideMessage m groups = false ∧ isSubagentMessage m = true := by
  have hsub : isSubagentMessage m = true := by
    unfold isSubagentMessage
    rw [hparent, hside]
    simp
  refine ⟨?_, hsub⟩
  simp [shouldHideMessage, getParentToolUseId, hparent, hsub]

/-- Witness for C10 at the concrete sidechain-only message. -/
theorem sidechain_only_not_hidden_witness :
    sideOnlyMsg.isSidechain = true ∧ sideOnlyMsg.parent_tool_use_id = none ∧
    shouldHideMessage sideOnlyMsg [] = false ∧ isSubagentMessage sideOnlyMsg = true :=
  ⟨rfl, rfl, (sidechain_only_not_hidden sideOnlyMsg [] rfl rfl).1,
    (sidechain_only_not_hidden sideOnlyMsg [] rfl rfl).2⟩

/-- C9 counterexample: a superseded Codex completion of `a` does mutate
observable state — the rate limits the source publishes through
`setCodexRateLimits` during conversion, before the race-guard check —
so the resulting state differs from the pre-completion state. -/
theorem load_history_race_guard_cex :
    resolveLoadSessionHistory
        (requestLoadSessionHistory (requestLoadSessionHistory {} "a") "b") "a"
        (.successCodex [] [] (some "updated"))
      ≠ requestLoadSessionHistory (requestLoadSessionHistory {} "a") "b" ∧
    (resolveLoadSessionHistory
        (requestLoadSessionHistory (requestLoadSessionHistory {} "a") "b") "a"
        (.successCodex [] [] (some "updated"))).codexRateLimits = some "updated" ∧
    (requestLoadSessionHistory (requestLoadSessionHistory {} "a") "b").codexRateLimits
      = none := by
  decide

/-- C9 (amended): a superseded non-Codex completion of `a` is discarded
with no observable state mutation; a superseded Codex completion still
publishes the converter rate limits — the only mutation, every other
component is untouched; and the completion of `b`, once resolved, is
applied. -/
theorem load_history_race_guard_amended (st : LifecycleState) (a b : String) (o : LoadOutcome)
    (msgs raw rl msgsB rawB : _) (hne : a ≠ b)
    (hnc : ∀ m r l, o ≠ LoadOutcome.successCodex m r l) :
    resolveLoadSessionHistory (requestLoadSessionHistory (requestLoadSessionHistory st a) b) a o
      = requestLoadSessionHistory (requestLoadSessionHistory st a) b ∧
    resolveLoadSessionHistory (requestLoadSessionHistory (requestLoadSessionHistory st a) b) a
        (.successCodex msgs raw rl)
      = { requestLoadSessionHistory (requestLoadSessionHistory st a) b with
          codexRateLimits := rl } ∧
    (resolveLoadSessionHistory
        (resolveLoadSessionHistory (requestLoadSessionHistory (requestLoadSessionHistory st a) b)
          a o)
        b (.success msgsB rawB)).messages = msgsB ∧
    (resolveLoadSessionHistory
        (resolveLoadSessionHistory (requestLoadSessionHistory (requestLoadSessionHistory st a) b)
          a o)
        b (.success msgsB rawB)).isLoading = false := by
  have hid : (requestLoadSessionHistory (requestLoadSessionHistory st a) b).loadingSessionId
      = some b := rfl
  have hA : resolveLoadSessionHistory
      (requestLoadSessionHistory (requestLoadSessionHistory st a) b) a o
      = requestLoadSessionHistory (requestLoadSessionHistory st a) b := by
    cases o with
    | success msgs0 raw0 =>
      unfold resolveLoadSessionHistory
      simp [hid, hne.symm]
    | successCodex msgs0 raw0 rl0 => exact absurd rfl (hnc msgs0 raw0 rl0)
    | notFound =>
      unfold resolveLoadSessionHistory
      simp [hid, hne.symm]
    | failure =>
      unfold resolveLoadSessionHistory
      simp [hid, hne.symm]
  have hACodex : resolveLoadSessionHistory
      (requestLoadSessionHistory (requestLoadSessionHistory st a) b) a
      (.successCodex msgs raw rl)
      = { requestLoadSessionHistory (requestLoadSessionHistory st a) b with
          codexRateLimits := rl } := by
    unfold resolveLoadSessionHistory
    simp [hid, hne.symm]
  refine ⟨hA, hACodex, ?_, ?_⟩ <;> rw [hA] <;> unfold resolveLoadSessionHistory <;>
    simp [hid]

/-- Witness for C9 at concrete session ids and a non-Codex outcome. -/
theorem load_history_race_guard_amended_witness :
    ("a" : String) ≠ "b" ∧
    resolveLoadSessionHistory
        (requestLoadSessionHistory (requestLoadSessionHistory {} "a") "b") "a" .notFound
      = requestLoadSessionHistory (requestLoadSessionHistory {} "a") "b" :=
  ⟨by decide,
    (load_history_race_guard_amended {} "a" "b" .notFound [] [] none [] [] (by decide)
        (by intro m r l h; exact LoadOutcome.noConfusion h)).1⟩

/-- C8 counterexample: a record of kind `summary` is outside the kind set
the claim states, yet the loader keeps it. -/
theorem history_kind_filter_cex :
    filterLoadedHistory [histSummaryMsg] = [histSummaryMsg] ∧
    "summary" ∉ (["user", "assistant", "system", "result", "thinking", "tool_use"] : List String) := by
  decide

/-- C8 (amended): the loader keeps every record whose kind is in the
valid set (which also contains `summary`), every loaded record arises
from a kept record via the kind default, and every record whose kind is
a non-empty string outside the valid set is dropped by the filter
predicate. -/
theorem history_kind_filter_amended (h : List ClaudeMsg) :
    (∀ e t, e ∈ h → e.mtype = some t → t ∈ validHistoryTypes → e ∈ filterLoadedHistory h) ∧
    (∀ x, x ∈ filterLoadedHistory h →
      ∃ e, e ∈ h ∧ keepHistoryEntry e = true ∧ x = defaultHistoryType e) ∧
    (∀ e t, e.mtype = some t → t ≠ "" → t ∉ validHistoryTypes → keepHistoryEntry e = false) := by
  refine ⟨?_, ?_, ?_⟩
  · intro e t he hmt hv
    have hne : t ≠ "" := by
      rintro rfl
      simp [validHistoryTypes] at hv
    have hk : keepHistoryEntry e = true := keepHistoryEntry_of_valid hmt hv
    have hd : defaultHistoryType e = e := defaultHistoryType_eq_self hmt hne
    unfold filterLoadedHistory
    rw [← hd]
    exact List.mem_map_of_mem _ (List.mem_filter.mpr ⟨he, hk⟩)
  · intro x hx
    unfold filterLoadedHistory at hx
    obtain ⟨e, he, rfl⟩ := List.mem_map.mp hx
    obtain ⟨he2, hk⟩ := List.mem_filter.mp he
    exact ⟨e, he2, hk, rfl⟩
  · intro e t hmt hne hnv
    unfold keepHistoryEntry
    rw [hmt]
    simp [hne, hnv]

/-- Witness for C8 at a concrete `user`-kind record. -/
theorem history_kind_filter_amended_witness :
    histUserMsg ∈ ([histUserMsg] : List ClaudeMsg) ∧ histUserMsg.mtype = some "user" ∧
    "user" ∈ validHistoryTypes ∧ histUserMsg ∈ filterLoadedHistory [histUserMsg] :=
  ⟨by decide, rfl, by decide,
    (history_kind_filter_amended [histUserMsg]).1 histUserMsg "user" (by decide) rfl (by decide)⟩

/-- C6: the usage normalizer derives `input = prompt + toolUse` and
`output = candidates + thoughts` when only component counts are present,
returns `null` when every derived and direct signal is zero or missing,
attaches cached tokens only when strictly positive, and never produces
negative field values. -/
theorem usage_normalizer_props :
    (∀ t p c, toNumber t.input_tokens = none → toNumber t.output_tokens = none →
      geminiPrompt t = some p → geminiCandidates t = some c →
      0 ≤ p + geminiTool t → 0 ≤ c + geminiThoughts t →
      ¬(p + geminiTool t ≤ 0 ∧ c + geminiThoughts t ≤ 0 ∧ geminiCached t ≤ 0) →
      extractGeminiUsage t = some
        { input_tokens := p + geminiTool t
          output_tokens := c + geminiThoughts t
          cached_input_tokens :=
            if geminiCached t > 0 then some (geminiCached t) else none }) ∧
    (∀ t, (geminiInputSignal t).getD 0 = 0 → (geminiOutputSignal t).getD 0 = 0 →
      geminiCached t = 0 → extractGeminiUsage t = none) ∧
    (∀ t u cv, extractGeminiUsage t = some u → u.cached_input_tokens = some cv → 0 < cv) ∧
    (∀ t u, extractGeminiUsage t = some u →
      0 ≤ u.input_tokens ∧ 0 ≤ u.output_tokens ∧
        ∀ cv, u.cached_input_tokens = some cv → 0 ≤ cv) := by
  refine ⟨?_, ?_, ?_, ?_⟩
  · intro t p c hin hout hp hc h1 h2 hns
    have hi : geminiInputSignal t = some (p + geminiTool t) := by
      unfold geminiInputSignal
      rw [hin, hp]
      rfl
    have ho : geminiOutputSignal t = some (c + geminiThoughts t) := by
      unfold geminiOutputSignal
      rw [hout, hc]
      rfl
    unfold extractGeminiUsage
    rw [hi, ho]
    simp only [Option.getD_some]
    rw [if_neg hns, max_eq_left h1, max_eq_left h2]
  · intro t h1 h2 h3
    unfold extractGeminiUsage
    rw [h1, h2, h3]
    norm_num
  · intro t u cv hu hcv
    unfold extractGeminiUsage at hu
    by_cases hcond : (geminiInputSignal t).getD 0 ≤ 0 ∧ (geminiOutputSignal t).getD 0 ≤ 0 ∧
        geminiCached t ≤ 0
    · rw [if_pos hcond] at hu
      exact absurd hu (by simp)
    · rw [if_neg hcond] at hu
      have hrec := Option.some.inj hu
      rw [← hrec] at hcv
      simp only at hcv
      by_cases hcp : geminiCached t > 0
      · rw [if_pos hcp] at hcv
        have := Option.some.inj hcv
        omega
      · rw [if_neg hcp] at hcv
        exact absurd hcv (by simp)
  · intro t u hu
    unfold extractGeminiUsage at hu
    by_cases hcond : (geminiInputSignal t).getD 0 ≤ 0 ∧ (geminiOutputSignal t).getD 0 ≤ 0 ∧
        geminiCached t ≤ 0
    · rw [if_pos hcond] at hu
      exact absurd hu (by simp)
    · rw [if_neg hcond] at hu
      have hrec := Option.some.inj hu
      rw [← hrec]
      refine ⟨le_max_right _ _, le_max_right _ _, ?_⟩
      intro cv hcv
      simp only at hcv
      by_cases hcp : geminiCached t > 0
      · rw [if_pos hcp] at hcv
        have := Option.some.inj hcv
        omega
      · rw [if_neg hcp] at hcv
        exact absurd hcv (by simp)

/-- Witness for C6 at a record carrying only component counts. -/
theorem usage_normalizer_props_witness :
    toNumber geminiTokensEx.input_tokens = none ∧
    geminiPrompt geminiTokensEx = some 100 ∧
    geminiCandidates geminiTokensEx = some 20 ∧
    extractGeminiUsage geminiTokensEx = some
      { input_tokens := 100 + geminiTool geminiTokensEx
        output_tokens := 20 + geminiThoughts geminiTokensEx
        cached_input_tokens :=
          if geminiCached geminiTokensEx > 0 then some (geminiCached geminiTokensEx) else none } :=
  ⟨rfl, rfl, rfl,
    usage_normalizer_props.1 geminiTokensEx 100 20 rfl rfl rfl rfl
      (by decide) (by decide) (by decide)⟩

/-- C4: at a call carrying both a structured functionResponse output and
a display summary, the synthesized `tool_result` carries the display
summary (the `resultDisplay || ...` short-circuit), although the
structured output exists and differs — contradicting the claim and the
source comment stating the actual output data is preferred. -/
theorem gemini_tool_result_display_preferred_eval :
    geminiResultContentString (.varrFn "structured output" "[raw]") = "structured output" ∧
    convertGeminiSessionDetailToClaudeMessages geminiDetailBug =
      [ { mtype := some "user"
          message := some { content := some [{ ctype := "tool_result", tool_use_id := some "tb", content := some "summary", is_error := some false }]
                            role := some "user" }
          timestamp := some "T", engine := some "gemini" }
      , { mtype := some "assistant"
          message := some { content := some [{ ctype := "tool_use", id := some "tb", name := some "readFile", input := some {} }]
                            role := some "assistant" }
          timestamp := some "T", engine := some "gemini" } ] := by
  decide

/-- C3 counterexample: the converted scenario has four messages with
kinds `user, user, assistant, result` — the synthesized `tool_result`
precedes the assistant message and the narrative shares the assistant
message with the `tool_use` block, so the claimed five-message sequence
(user, assistant, tool_result, assistant narrative, result) is not
produced. -/
theorem gemini_scenario_order_cex :
    (convertGeminiSessionDetailToClaudeMessages geminiDetailC3).map (·.mtype)
      = [some "user", some "user", some "assistant", some "result"] ∧
    (convertGeminiSessionDetailToClaudeMessages geminiDetailC3).length = 4 := by
  decide

/-- C3 (amended): the scenario converts to exactly: the user text
message, the synthesized `tool_result` user message with content `ok`,
one assistant message carrying the `tool_use` block followed by the
narrative `Fixed it`, then a `result` message with usage
`{input 100, output 20}`. -/
theorem gemini_scenario_order_amended :
    convertGeminiSessionDetailToClaudeMessages geminiDetailC3 =
      [ { mtype := some "user"
          message := some { content := some [{ ctype := "text", text := some "fix bug" }]
                            role := some "user" }
          timestamp := some "2024-01-01T00:00:00Z", engine := some "gemini" }
      , { mtype := some "user"
          message := some { content := some [{ ctype := "tool_result", tool_use_id := some "call1", content := some "ok", is_error := some false }]
                            role := some "user" }
          timestamp := some "2024-01-01T00:00:05Z", engine := some "gemini" }
      , { mtype := some "assistant"
          message := some { content := some [{ ctype := "tool_use", id := some "call1", name := some "readFile", input := some {} }, { ctype := "text", text := some "Fixed it" }]
                            role := some "assistant" }
          timestamp := some "2024-01-01T00:00:05Z", engine := some "gemini" }
      , { mtype := some "result", subtype := some "success"
          usage := some { input_tokens := 100, output_tokens := 20 }
          timestamp := some "2024-01-01T00:00:05Z", engine := some "gemini" } ] := by
  decide

/-- C7: in the billing aggregator final event list, surviving events are
pairwise ordered: ascending by resolved timestamp when both sides have
one, an event with a timestamp always before one without, and among two
timestamp-less events ascending scan order. -/
theorem billing_event_ordering (extract : ClaudeMsg → StdTokens)
    (parseDate : String → Option Int) (costFn : StdTokens → String → String → Int)
    (messages : List ClaudeMsg) :
    ((aggregateSessionCost extract parseDate costFn messages).events).Pairwise
      billingOrderSpec := by
  have hev : (aggregateSessionCost extract parseDate costFn messages).events
      = List.insertionSort billingLE
          ((messages.enum.foldl
              (fun acc p => processBillingMessage extract parseDate costFn acc p.1 p.2) []).map
            (·.2)) := rfl
  rw [hev]
  have hs := List.sorted_insertionSort billingLE
    ((messages.enum.foldl
        (fun acc p => processBillingMessage extract parseDate costFn acc p.1 p.2) []).map (·.2))
  exact hs.imp (fun h => h)

/-- C1: when two billable candidates share a key, the survivor is the one
with strictly greater total-token count; at equal token counts the later
timestamp wins, and the later-scanned candidate wins when timestamps are
absent or tied; and the ledger never contains two events with the same
key. -/
theorem billing_dedup_per_key (extract : ClaudeMsg → StdTokens)
    (parseDate : String → Option Int) (costFn : StdTokens → String → String → Int)
    (mA mB : ClaudeMsg)
    (heA : getEngineType mA = "gemini") (htA : mA.mtype = some "result")
    (huA : mA.usage.isSome = true)
    (heB : getEngineType mB = "gemini") (htB : mB.mtype = some "result")
    (huB : mB.usage.isSome = true)
    (hkey : getBillingKey mB 1 = getBillingKey mA 0)
    (hTA : calculateTotalTokens (extract mA) ≠ 0)
    (hTB : calculateTotalTokens (extract mB) ≠ 0) :
    (calculateTotalTokens (extract mA) > calculateTotalTokens (extract mB) →
      (aggregateSessionCost extract parseDate costFn [mA, mB]).events.map (·.order) = [0]) ∧
    (calculateTotalTokens (extract mB) > calculateTotalTokens (extract mA) →
      (aggregateSessionCost extract parseDate costFn [mA, mB]).events.map (·.order) = [1]) ∧
    (calculateTotalTokens (extract mA) = calculateTotalTokens (extract mB) →
      ∀ x y, (extractTimestamp parseDate mA).2 = some x →
        (extractTimestamp parseDate mB).2 = some y → x < y →
        (aggregateSessionCost extract parseDate costFn [mA, mB]).events.map (·.order) = [1]) ∧
    (calculateTotalTokens (extract mA) = calculateTotalTokens (extract mB) →
      ∀ x y, (extractTimestamp parseDate mA).2 = some x →
        (extractTimestamp parseDate mB).2 = some y → y < x →
        (aggregateSessionCost extract parseDate costFn [mA, mB]).events.map (·.order) = [0]) ∧
    (calculateTotalTokens (extract mA) = calculateTotalTokens (extract mB) →
      (extractTimestamp parseDate mA).2 = (extractTimestamp parseDate mB).2 →
      (aggregateSessionCost extract parseDate costFn [mA, mB]).events.map (·.order) = [1]) ∧
    (∀ msgs, ((aggregateSessionCost extract parseDate costFn msgs).events).Pairwise
      (fun a b => a.key ≠ b.key)) := by
  have key_eq : (mkBillingEvent extract parseDate costFn mA 0).key
      = (mkBillingEvent extract parseDate costFn mB 1).key := hkey.symm
  have hTA2 : (mkBillingEvent extract parseDate costFn mA 0).totalTokenCount ≠ 0 := hTA
  have hTB2 : (mkBillingEvent extract parseDate costFn mB 1).totalTokenCount ≠ 0 := hTB
  have h1 : processBillingMessage extract parseDate costFn [] 0 mA
      = [((mkBillingEvent extract parseDate costFn mA 0).key,
          mkBillingEvent extract parseDate costFn mA 0)] := by
    rw [processBillingMessage_gemini extract parseDate costFn [] 0 mA heA htA huA, if_neg hTA2]
    rfl
  have h2 : processBillingMessage extract parseDate costFn
      [((mkBillingEvent extract parseDate costFn mA 0).key,
        mkBillingEvent extract parseDate costFn mA 0)] 1 mB
      = if (mkBillingEvent extract parseDate costFn mB 1).totalTokenCount >
            (mkBillingEvent extract parseDate costFn mA 0).totalTokenCount ∨
          ((mkBillingEvent extract parseDate costFn mB 1).totalTokenCount =
              (mkBillingEvent extract parseDate costFn mA 0).totalTokenCount ∧
            (mkBillingEvent extract parseDate costFn mA 0).timestampMs.getD 0 ≤
              (mkBillingEvent extract parseDate costFn mB 1).timestampMs.getD 0)
        then [((mkBillingEvent extract parseDate costFn mA 0).key,
               mkBillingEvent extract parseDate costFn mB 1)]
        else [((mkBillingEvent extract parseDate costFn mA 0).key,
               mkBillingEvent extract parseDate costFn mA 0)] := by
    rw [processBillingMessage_gemini extract parseDate costFn _ 1 mB heB htB huB, if_neg hTB2,
      updateEvent_cons_hit _ _ _ _ key_eq]
  have hstep : (aggregateSessionCost extract parseDate costFn [mA, mB]).events =
      if (mkBillingEvent extract parseDate costFn mB 1).totalTokenCount >
            (mkBillingEvent extract parseDate costFn mA 0).totalTokenCount ∨
          ((mkBillingEvent extract parseDate costFn mB 1).totalTokenCount =
              (mkBillingEvent extract parseDate costFn mA 0).totalTokenCount ∧
            (mkBillingEvent extract parseDate costFn mA 0).timestampMs.getD 0 ≤
              (mkBillingEvent extract parseDate costFn mB 1).timestampMs.getD 0)
      then [mkBillingEvent extract parseDate costFn mB 1]
      else [mkBillingEvent extract parseDate costFn mA 0] := by
    have hev : (aggregateSessionCost extract parseDate costFn [mA, mB]).events
        = List.insertionSort billingLE
            ((processBillingMessage extract parseDate costFn
                (processBillingMessage extract parseDate costFn [] 0 mA) 1 mB).map (·.2)) := rfl
    rw [hev, h1, h2]
    split <;> rfl
  have htotA : (mkBillingEvent extract parseDate costFn mA 0).totalTokenCount
      = calculateTotalTokens (extract mA) := rfl
  have htotB : (mkBillingEvent extract parseDate costFn mB 1).totalTokenCount
      = calculateTotalTokens (extract mB) := rfl
  have htsA : (mkBillingEvent extract parseDate costFn mA 0).timestampMs
      = (extractTimestamp parseDate mA).2 := rfl
  have htsB : (mkBillingEvent extract parseDate costFn mB 1).timestampMs
      = (extractTimestamp parseDate mB).2 := rfl
  have hordA : (mkBillingEvent extract parseDate costFn mA 0).order = 0 := rfl
  have hordB : (mkBillingEvent extract parseDate costFn mB 1).order = 1 := rfl
  refine ⟨?_, ?_, ?_, ?_, ?_, billing_keys_pairwise_ne extract parseDate costFn⟩
  · intro hgt
    rw [hstep, if_neg, List.map_cons, List.map_nil, hordA]
    rw [htotA, htotB, htsA, htsB]
    intro hc
    rcases hc with hc1 | ⟨hc2, _⟩
    · omega
    · omega
  · intro hgt
    rw [hstep, if_pos, List.map_cons, List.map_nil, hordB]
    rw [htotA, htotB]
    exact Or.inl hgt
  · intro heq x y hx hy hxy
    rw [hstep, if_pos, List.map_cons, List.map_nil, hordB]
    rw [htotA, htotB, htsA, htsB, hx, hy]
    right
    exact ⟨heq.symm, by simpa using le_of_lt hxy⟩
  · intro heq x y hx hy hyx
    rw [hstep, if_neg, List.map_cons, List.map_nil, hordA]
    rw [htotA, htotB, htsA, htsB, hx, hy]
    intro hc
    rcases hc with hc1 | ⟨_, hc3⟩
    · omega
    · simp only [Option.getD_some] at hc3
      omega
  · intro heq hts
    rw [hstep, if_pos, List.map_cons, List.map_nil, hordB]
    rw [htotA, htotB, htsA, htsB, hts]
    exact Or.inr ⟨heq.symm, le_refl _⟩

/-- Witness for C1 at two concrete Gemini result messages sharing key
`uuid:shared`, the first with more total tokens. -/
theorem billing_dedup_per_key_witness :
    calculateTotalTokens (extractEx bilMsgA) > calculateTotalTokens (extractEx bilMsgB) ∧
    (aggregateSessionCost extractEx parseDateEx costFnEx [bilMsgA, bilMsgB]).events.map
        (·.order) = [0] :=
  ⟨by decide,
    (billing_dedup_per_key extractEx parseDateEx costFnEx bilMsgA bilMsgB
        (by decide) rfl rfl (by decide) rfl rfl (by decide) (by decide) (by decide)).1
      (by decide)⟩

theorem pass3_cons (subG : List (String × SubagentGroup)) (i : Nat) (m : ClaudeMsg)
    (rest : List (Nat × ClaudeMsg)) (added : List String) :
    pass3 subG ((i, m) :: rest) added =
      if (match getParentToolUseId m with
          | some pid => (getAssoc pid subG).isSome
          | none => false) then pass3 subG rest added
      else if (extractTaskToolUseIds m).isEmpty then
        .normal m i :: pass3 subG rest added
      else
        (((extractTaskToolUseIds m).foldl (spawnStep subG) ([], added)).1 ++
          (if (extractTaskToolUseIds m).any (fun tid => (getAssoc tid subG).isSome) then []
           else [.normal m i])) ++
          pass3 subG rest ((extractTaskToolUseIds m).foldl (spawnStep subG) ([], added)).2 := rfl

theorem pass4_nil (cur : Option (List ClaudeMsg × Nat × TechType)) :
    pass4 cur [] = flushAgg cur := rfl

theorem pass4_subagent (cur : Option (List ClaudeMsg × Nat × TechType)) (g : SubagentGroup)
    (rest : List MessageGroup) :
    pass4 cur (.subagent g :: rest) = flushAgg cur ++ (.subagent g :: pass4 none rest) := rfl

theorem pass4_normal (cur : Option (List ClaudeMsg × Nat × TechType)) (m : ClaudeMsg) (i : Nat)
    (rest : List MessageGroup) :
    pass4 cur (.normal m i :: rest) =
      (match getTechnicalMessageType m with
       | some ty =>
         match cur with
         | some (ms, si, cty) =>
           if cty = ty then pass4 (some (ms ++ [m], si, cty)) rest
           else .aggregated ms si :: pass4 (some ([m], i, ty)) rest
         | none => pass4 (some ([m], i, ty)) rest
       | none => flushAgg cur ++ (.normal m i :: pass4 none rest)) := rfl

theorem pass4_agg_node (cur : Option (List ClaudeMsg × Nat × TechType)) (ms : List ClaudeMsg)
    (i : Nat) (rest : List MessageGroup) :
    pass4 cur (.aggregated ms i :: rest) = .aggregated ms i :: pass4 cur rest := rfl

theorem pass4_normal_tech_none (cur : Option (List ClaudeMsg × Nat × TechType)) (m : ClaudeMsg)
    (i : Nat) (rest : List MessageGroup) (h : getTechnicalMessageType m = none) :
    pass4 cur (.normal m i :: rest) = flushAgg cur ++ (.normal m i :: pass4 none rest) := by
  rw [pass4_normal, h]

theorem pass4_normal_open_none (m : ClaudeMsg) (i : Nat) (rest : List MessageGroup)
    (ty : TechType) (h : getTechnicalMessageType m = some ty) :
    pass4 none (.normal m i :: rest) = pass4 (some ([m], i, ty)) rest := by
  rw [pass4_normal, h]

theorem pass4_normal_open_some (m : ClaudeMsg) (i : Nat) (rest : List MessageGroup)
    (ty : TechType) (ms : List ClaudeMsg) (si : Nat) (cty : TechType)
    (h : getTechnicalMessageType m = some ty) :
    pass4 (some (ms, si, cty)) (.normal m i :: rest) =
      if cty = ty then pass4 (some (ms ++ [m], si, cty)) rest
      else .aggregated ms si :: pass4 (some ([m], i, ty)) rest := by
  rw [pass4_normal, h]

theorem tech_some_props (m : ClaudeMsg) (ty : TechType)
    (h : getTechnicalMessageType m = some ty) :
    (msgHasNarrativeText m = true → m.mtype = some "thinking") ∧
    ¬(m.mtype = some "assistant" ∧ msgHasThinkingContent m = true ∧
        msgHasToolContent m = true) := by
  unfold getTechnicalMessageType at h
  by_cases h1 : m.mtype = some "thinking"
  · refine ⟨fun _ => h1, ?_⟩
    rintro ⟨h2, _⟩
    rw [h1] at h2
    exact absurd (Option.some.inj h2) (by decide)
  · rw [if_neg h1] at h
    by_cases h2 : m.mtype ≠ some "assistant"
    · rw [if_pos h2] at h
      exact absurd h (by simp)
    · rw [if_neg h2] at h
      constructor
      · intro hnarr
        cases hc : contentItems m with
        | none =>
          unfold msgHasNarrativeText at hnarr
          rw [hc] at hnarr
          exact absurd hnarr (by simp)
        | some items =>
          rw [hc] at h
          rw [hnarr] at h
          simp at h
      · rintro ⟨_, hth, htl⟩
        cases hc : contentItems m with
        | none =>
          unfold msgHasThinkingContent at hth
          rw [hc] at hth
          exact absurd hth (by simp)
        | some items =>
          rw [hc] at h
          rw [hth, htl] at h
          by_cases hn : msgHasNarrativeText m = true
          · rw [hn] at h
            simp at h
          · rw [if_neg hn] at h
            simp at h

theorem mem_spawnFold (subG : List (String × SubagentGroup)) :
    ∀ (tids : List String) (st : List MessageGroup × List String) (g : MessageGroup),
    g ∈ (tids.foldl (spawnStep subG) st).1 → g ∈ st.1 ∨ ∃ grp, g = MessageGroup.subagent grp
  | [], st, g, hg => Or.inl hg
  | tid :: tids, st, g, hg => by
    rw [List.foldl_cons] at hg
    rcases mem_spawnFold subG tids (spawnStep subG st tid) g hg with h1 | h2
    · unfold spawnStep at h1
      cases hassoc : getAssoc tid subG with
      | none =>
        rw [hassoc] at h1
        exact Or.inl h1
      | some grp =>
        simp only [hassoc] at h1
        by_cases hc : st.2.contains tid = true
        · rw [if_pos hc] at h1
          exact Or.inl h1
        · rw [if_neg hc] at h1
          rcases List.mem_append.mp h1 with h1a | h1b
          · exact Or.inl h1a
          · simp at h1b
            exact Or.inr ⟨grp, h1b⟩
    · exact Or.inr h2

theorem pass3_no_aggregated (subG : List (String × SubagentGroup)) :
    ∀ (l : List (Nat × ClaudeMsg)) (added : List String) (ms : List ClaudeMsg) (i : Nat),
    MessageGroup.aggregated ms i ∉ pass3 subG l added
  | [], _, ms, i => by simp [pass3]
  | (j, m) :: rest, added, ms, i => by
    rw [pass3_cons]
    by_cases hskip : (match getParentToolUseId m with
        | some pid => (getAssoc pid subG).isSome
        | none => false) = true
    · rw [if_pos hskip]
      exact pass3_no_aggregated subG rest added ms i
    · rw [if_neg hskip]
      by_cases hemp : (extractTaskToolUseIds m).isEmpty = true
      · rw [if_pos hemp]
        intro hmem
        rcases List.mem_cons.mp hmem with h1 | h2
        · exact MessageGroup.noConfusion h1
        · exact pass3_no_aggregated subG rest added ms i h2
      · rw [if_neg hemp]
        intro hmem
        rcases List.mem_append.mp hmem with h1 | h2
        · rcases List.mem_append.mp h1 with h1a | h1b
          · rcases mem_spawnFold subG _ _ _ h1a with h | ⟨grp, hg⟩
            · simp at h
            · exact MessageGroup.noConfusion hg
          · by_cases hany : (extractTaskToolUseIds m).any
                (fun tid => (getAssoc tid subG).isSome) = true
            · rw [if_pos hany] at h1b
              simp at h1b
            · rw [if_neg hany] at h1b
              simp at h1b
        · exact pass3_no_aggregated subG rest _ ms i h2

theorem pass4_flush_mem {cur : Option (List ClaudeMsg × Nat × TechType)}
    {ms : List ClaudeMsg} {i : Nat}
    (h : MessageGroup.aggregated ms i ∈ flushAgg cur) (hok : aggOK cur) :
    ∀ m ∈ ms, ∃ ty, getTechnicalMessageType m = some ty := by
  cases cur with
  | none => simp [flushAgg] at h
  | some trip =>
    obtain ⟨ms0, i0, ty0⟩ := trip
    simp [flushAgg] at h
    obtain ⟨hms, _⟩ := h
    subst hms
    exact fun m hm => ⟨ty0, hok m hm⟩

theorem pass4_aggregated_classified :
    ∀ (l : List MessageGroup) (cur : Option (List ClaudeMsg × Nat × TechType)),
    (∀ ms i, MessageGroup.aggregated ms i ∉ l) → aggOK cur →
    ∀ ms i, MessageGroup.aggregated ms i ∈ pass4 cur l →
    ∀ m ∈ ms, ∃ ty, getTechnicalMessageType m = some ty
  | [], cur, _, hok, ms, i, hmem => by
    rw [pass4_nil] at hmem
    exact pass4_flush_mem hmem hok
  | .subagent g :: rest, cur, hl, hok, ms, i, hmem => by
    rw [pass4_subagent] at hmem
    rcases List.mem_append.mp hmem with h1 | h2
    · exact pass4_flush_mem h1 hok
    · rcases List.mem_cons.mp h2 with h2a | h2b
      · exact MessageGroup.noConfusion h2a
      · exact pass4_aggregated_classified rest none
          (fun ms' i' hm => hl ms' i' (List.mem_cons_of_mem _ hm)) trivial ms i h2b
  | .normal m0 i0 :: rest, cur, hl, hok, ms, i, hmem => by
    cases htech : getTechnicalMessageType m0 with
    | none =>
      rw [pass4_normal_tech_none cur m0 i0 rest htech] at hmem
      rcases List.mem_append.mp hmem with h1 | h2
      · exact pass4_flush_mem h1 hok
      · rcases List.mem_cons.mp h2 with h2a | h2b
        · exact MessageGroup.noConfusion h2a
        · exact pass4_aggregated_classified rest none
            (fun ms' i' hm => hl ms' i' (List.mem_cons_of_mem _ hm)) trivial ms i h2b
    | some ty =>
      cases cur with
      | none =>
        rw [pass4_normal_open_none m0 i0 rest ty htech] at hmem
        refine pass4_aggregated_classified rest (some ([m0], i0, ty))
          (fun ms' i' hm => hl ms' i' (List.mem_cons_of_mem _ hm)) ?_ ms i hmem
        intro m hm
        simp at hm
        subst hm
        exact htech
      | some trip =>
        obtain ⟨ms0, si, cty⟩ := trip
        rw [pass4_normal_open_some m0 i0 rest ty ms0 si cty htech] at hmem
        by_cases hcy : cty = ty
        · rw [if_pos hcy] at hmem
          refine pass4_aggregated_classified rest (some (ms0 ++ [m0], si, cty))
            (fun ms' i' hm => hl ms' i' (List.mem_cons_of_mem _ hm)) ?_ ms i hmem
          intro m hm
          rcases List.mem_append.mp hm with hma | hmb
          · exact hok m hma
          · simp at hmb
            subst hmb
            rw [hcy]
            exact htech
        · rw [if_neg hcy] at hmem
          rcases List.mem_cons.mp hmem with h1 | h2
          · injection h1 with hms _
            subst hms
            exact fun m hm => ⟨cty, hok m hm⟩
          · refine pass4_aggregated_classified rest (some ([m0], i0, ty))
              (fun ms' i' hm => hl ms' i' (List.mem_cons_of_mem _ hm)) ?_ ms i h2
            intro m hm
            simp at hm
            subst hm
            exact htech
  | .aggregated ms0 i0 :: rest, _, hl, _, ms, i, _ =>
    (hl ms0 i0 (List.mem_cons_self _ _)).elim

theorem pass3_mem_normal (subG : List (String × SubagentGroup)) :
    ∀ (l : List (Nat × ClaudeMsg)) (added : List String) (i : Nat) (m : ClaudeMsg),
    (i, m) ∈ l → getParentToolUseId m = none → extractTaskToolUseIds m = [] →
    MessageGroup.normal m i ∈ pass3 subG l added
  | [], _, i, m, hmem, _, _ => by simp at hmem
  | (j, m0) :: rest, added, i, m, hmem, hpar, htask => by
    rcases List.mem_cons.mp hmem with h1 | h2
    · injection h1 with hj hm
      subst hj
      subst hm
      rw [pass3_cons]
      simp [hpar, htask]
    · rw [pass3_cons]
      by_cases hskip : (match getParentToolUseId m0 with
          | some pid => (getAssoc pid subG).isSome
          | none => false) = true
      · rw [if_pos hskip]
        exact pass3_mem_normal subG rest added i m h2 hpar htask
      · rw [if_neg hskip]
        by_cases hemp : (extractTaskToolUseIds m0).isEmpty = true
        · rw [if_pos hemp]
          exact List.mem_cons_of_mem _ (pass3_mem_normal subG rest added i m h2 hpar htask)
        · rw [if_neg hemp]
          exact List.mem_append.mpr (Or.inr (pass3_mem_normal subG rest _ i m h2 hpar htask))

theorem pass4_mem_normal :
    ∀ (l : List MessageGroup) (cur : Option (List ClaudeMsg × Nat × TechType))
      (m : ClaudeMsg) (i : Nat),
    MessageGroup.normal m i ∈ l → getTechnicalMessageType m = none →
    MessageGroup.normal m i ∈ pass4 cur l
  | [], _, m, i, hmem, _ => by simp at hmem
  | .subagent g :: rest, cur, m, i, hmem, htech => by
    rw [pass4_subagent]
    rcases List.mem_cons.mp hmem with h1 | h2
    · exact MessageGroup.noConfusion h1
    · exact List.mem_append.mpr
        (Or.inr (List.mem_cons_of_mem _ (pass4_mem_normal rest none m i h2 htech)))
  | .normal m0 i0 :: rest, cur, m, i, hmem, htech => by
    rcases List.mem_cons.mp hmem with h1 | h2
    · injection h1 with hm hi
      subst hm
      subst hi
      rw [pass4_normal_tech_none cur m i rest htech]
      exact List.mem_append.mpr (Or.inr (List.mem_cons_self _ _))
    · cases htech0 : getTechnicalMessageType m0 with
      | none =>
        rw [pass4_normal_tech_none cur m0 i0 rest htech0]
        exact List.mem_append.mpr
          (Or.inr (List.mem_cons_of_mem _ (pass4_mem_normal rest none m i h2 htech)))
      | some ty =>
        cases cur with
        | none =>
          rw [pass4_normal_open_none m0 i0 rest ty htech0]
          exact pass4_mem_normal rest _ m i h2 htech
        | some trip =>
          obtain ⟨ms0, si, cty⟩ := trip
          rw [pass4_normal_open_some m0 i0 rest ty ms0 si cty htech0]
          by_cases hcy : cty = ty
          · rw [if_pos hcy]
            exact pass4_mem_normal rest _ m i h2 htech
          · rw [if_neg hcy]
            exact List.mem_cons_of_mem _ (pass4_mem_normal rest _ m i h2 htech)
  | .aggregated ms0 i0 :: rest, cur, m, i, hmem, htech => by
    rw [pass4_agg_node]
    rcases List.mem_cons.mp hmem with h1 | h2
    · exact MessageGroup.noConfusion h1
    · exact List.mem_cons_of_mem _ (pass4_mem_normal rest cur m i h2 htech)

theorem mem_enumFrom_of_getQ : ∀ (l : List ClaudeMsg) (n i : Nat) (a : ClaudeMsg),
    l.get? i = some a → (n + i, a) ∈ l.enumFrom n
  | [], _, i, a, h => by simp at h
  | b :: t, n, 0, a, h => by
    simp at h
    subst h
    simp [List.enumFrom]
  | b :: t, n, i + 1, a, h => by
    rw [List.get?_cons_succ] at h
    have hrec := mem_enumFrom_of_getQ t (n + 1) i a h
    rw [List.enumFrom_cons]
    refine List.mem_cons_of_mem _ ?_
    have harr : n + (i + 1) = (n + 1) + i := by omega
    rw [harr]
    exact hrec

theorem mem_enum_of_getQ (l : List ClaudeMsg) (i : Nat) (a : ClaudeMsg)
    (h : l.get? i = some a) : (i, a) ∈ l.enum := by
  have hrec := mem_enumFrom_of_getQ l 0 i a h
  simpa [List.enum] using hrec

/-- C2 counterexample: a thinking-kind record carrying a non-empty text
block is compacted into an aggregated-technical group, and a
narrative-text message attributed to a spawn lands inside the sub-agent
group — neither appears as a standalone normal node. -/
theorem narrative_standalone_cex :
    groupMessages [cexSpawnMsg, cexChildMsg, cexThinkMsg] =
      [ .subagent { id := "t1", taskMessage := cexSpawnMsg, taskToolUseId := "t1"
                    subagentMessages := [cexChildMsg], startIndex := 0, endIndex := 1
                    subagentType := some "research" }
      , .aggregated [cexThinkMsg] 2 ] ∧
    msgHasNarrativeText cexThinkMsg = true ∧
    msgHasNarrativeText cexChildMsg = true := by
  decide

/-- C2 (amended): every message inside an aggregated-technical group
that carries a non-empty narrative text block is a thinking-kind record
(so a non-thinking-kind message with narrative text is never inside an
aggregate), no aggregated member is an assistant message mixing
reasoning and tool content, and every narrative-text message that is not
thinking-kind, not attributed to a spawn, and not itself spawning,
appears as a standalone normal node. -/
theorem narrative_standalone_amended (msgs : List ClaudeMsg) :
    (∀ ms i, MessageGroup.aggregated ms i ∈ groupMessages msgs →
      ∀ m ∈ ms, (msgHasNarrativeText m = true → m.mtype = some "thinking") ∧
        ¬(m.mtype = some "assistant" ∧ msgHasThinkingContent m = true ∧
            msgHasToolContent m = true)) ∧
    (∀ i m, msgs.get? i = some m → msgHasNarrativeText m = true →
      m.mtype ≠ some "thinking" → getParentToolUseId m = none →
      extractTaskToolUseIds m = [] →
      MessageGroup.normal m i ∈ groupMessages msgs) := by
  have hgm : groupMessages msgs = pass4 none
      (pass3 (buildSubagentGroups msgs (buildTaskMap msgs.enum)
          (buildTaskSubagentTypes msgs.enum))
        msgs.enum []) := rfl
  constructor
  · intro ms i hmem m hm
    rw [hgm] at hmem
    have hcls := pass4_aggregated_classified _ none
      (fun ms' i' => pass3_no_aggregated _ _ _ ms' i') trivial ms i hmem m hm
    obtain ⟨ty, hty⟩ := hcls
    exact tech_some_props m ty hty
  · intro i m hget hnarr hnthink hpar htask
    rw [hgm]
    have hmem := mem_enum_of_getQ msgs i m hget
    have h3 := pass3_mem_normal
      (buildSubagentGroups msgs (buildTaskMap msgs.enum) (buildTaskSubagentTypes msgs.enum))
      msgs.enum [] i m hmem hpar htask
    have htech : getTechnicalMessageType m = none := by
      unfold getTechnicalMessageType
      rw [if_neg hnthink]
      by_cases ha : m.mtype ≠ some "assistant"
      · rw [if_pos ha]
      · rw [if_neg ha]
        cases hc : contentItems m with
        | none => rfl
        | some items => simp [hnarr]
    exact pass4_mem_normal _ none m i h3 htech

/-- Witness for C2 at a plain narrative assistant message. -/
theorem narrative_standalone_amended_witness :
    ([plainTextMsg] : List ClaudeMsg).get? 0 = some plainTextMsg ∧
    msgHasNarrativeText plainTextMsg = true ∧
    MessageGroup.normal plainTextMsg 0 ∈ groupMessages [plainTextMsg] :=
  ⟨rfl, by decide,
    (narrative_standalone_amended [plainTextMsg]).2 0 plainTextMsg rfl (by decide)
      (by decide) (by decide) (by decide)⟩

theorem snd_mem_enumFrom :
    ∀ {l : List ClaudeMsg} {n : Nat} {p : Nat × ClaudeMsg}, p ∈ List.enumFrom n l → p.2 ∈ l := by
  intro l
  induction l with
  | nil => intro n p h; simp [List.enumFrom] at h
  | cons b t ih =>
    intro n p h
    rw [List.enumFrom_cons] at h
    rcases List.mem_cons.mp h with h1 | h2
    · subst h1
      exact List.mem_cons_self _ _
    · exact List.mem_cons_of_mem _ (ih h2)

theorem taskMapFold_no_tasks :
    ∀ (l : List (Nat × ClaudeMsg)) (acc : List (String × (ClaudeMsg × Nat))),
    (∀ p ∈ l, extractTaskToolUseIds p.2 = []) →
    l.foldl (fun acc2 p => (extractTaskToolUseIds p.2).foldl
        (fun a tid => setAssoc tid (p.2, p.1) a) acc2) acc = acc
  | [], _, _ => rfl
  | p :: rest, acc, h => by
    rw [List.foldl_cons]
    have hp : extractTaskToolUseIds p.2 = [] := h p (List.mem_cons_self _ _)
    rw [hp]
    exact taskMapFold_no_tasks rest acc (fun q hq => h q (List.mem_cons_of_mem _ hq))

theorem buildTaskMap_scenario (m0 : ClaudeMsg) (rest : List ClaudeMsg) (t1 t2 : String)
    (hids : extractTaskToolUseIds m0 = [t1, t2]) (hne : t1 ≠ t2)
    (hrest : ∀ m ∈ rest, extractTaskToolUseIds m = []) :
    buildTaskMap ((m0 :: rest).enum) = [(t1, (m0, 0)), (t2, (m0, 0))] := by
  have henum : (m0 :: rest).enum = (0, m0) :: List.enumFrom 1 rest := rfl
  unfold buildTaskMap
  rw [henum, List.foldl_cons]
  rw [taskMapFold_no_tasks (List.enumFrom 1 rest) _
    (fun p hp => hrest p.2 (snd_mem_enumFrom hp))]
  show (extractTaskToolUseIds m0).foldl (fun a tid => setAssoc tid (m0, 0) a) [] = _
  rw [hids]
  simp [setAssoc, hne]

theorem enumFrom_filter_map_snd :
    ∀ (l : List ClaudeMsg) (n : Nat) (pred : ClaudeMsg → Bool),
    ((List.enumFrom n l).filter (fun p => pred p.2)).map (·.2) = l.filter pred
  | [], _, _ => rfl
  | b :: t, n, pred => by
    rw [List.enumFrom_cons]
    simp only [List.filter_cons]
    cases hb : pred b
    · simpa [hb] using enumFrom_filter_map_snd t (n + 1) pred
    · simpa [hb] using enumFrom_filter_map_snd t (n + 1) pred

theorem collect_scenario (m0 : ClaudeMsg) (rest : List ClaudeMsg) (t : String) :
    (collectSubagentMessages (m0 :: rest) 0 t).1
      = rest.filter (fun m => getParentToolUseId m == some t) := by
  exact enumFrom_filter_map_snd rest 1 (fun m => getParentToolUseId m == some t)

theorem buildSubagentGroups_scenario (msgs : List ClaudeMsg) (m0 : ClaudeMsg) (t1 t2 : String)
    (stypes : List (String × String)) (hne : t1 ≠ t2)
    (h1 : (collectSubagentMessages msgs 0 t1).1.length > 0)
    (h2 : (collectSubagentMessages msgs 0 t2).1.length > 0) :
    buildSubagentGroups msgs [(t1, (m0, 0)), (t2, (m0, 0))] stypes =
      [ (t1, { id := t1, taskMessage := m0, taskToolUseId := t1
               subagentMessages := (collectSubagentMessages msgs 0 t1).1
               startIndex := 0, endIndex := (collectSubagentMessages msgs 0 t1).2
               subagentType := getAssoc t1 stypes })
      , (t2, { id := t2, taskMessage := m0, taskToolUseId := t2
               subagentMessages := (collectSubagentMessages msgs 0 t2).1
               startIndex := 0, endIndex := (collectSubagentMessages msgs 0 t2).2
               subagentType := getAssoc t2 stypes }) ] := by
  unfold buildSubagentGroups
  simp only [List.foldl_cons, List.foldl_nil]
  rw [if_pos h1, if_pos h2]
  simp [setAssoc, hne]

theorem pass3_all_skipped (subG : List (String × SubagentGroup)) :
    ∀ (l : List (Nat × ClaudeMsg)) (added : List String),
    (∀ p ∈ l, ∃ pid, getParentToolUseId p.2 = some pid ∧ (getAssoc pid subG).isSome = true) →
    pass3 subG l added = []
  | [], _, _ => rfl
  | (j, m) :: rest, added, h => by
    rw [pass3_cons]
    obtain ⟨pid, hpid, hsome⟩ := h (j, m) (List.mem_cons_self _ _)
    simp only [hpid]
    rw [if_pos hsome]
    exact pass3_all_skipped subG rest added (fun q hq => h q (List.mem_cons_of_mem _ hq))

/-- C5: an assistant message spawning `t1` and `t2` in parallel followed
by messages attributed to either spawn (interleaved arbitrarily, three
for `t1` and two for `t2`) groups into exactly two sub-agent groups, each
holding precisely its own attributed messages in original relative order,
with nothing else in the output. -/
theorem parallel_spawn_grouping (m0 : ClaudeMsg) (rest : List ClaudeMsg) (t1 t2 : String)
    (hids : extractTaskToolUseIds m0 = [t1, t2]) (hne : t1 ≠ t2)
    (hp0 : getParentToolUseId m0 = none)
    (hrest : ∀ m ∈ rest, extractTaskToolUseIds m = [] ∧
      (getParentToolUseId m = some t1 ∨ getParentToolUseId m = some t2))
    (hc1 : (rest.filter fun m => getParentToolUseId m == some t1).length = 3)
    (hc2 : (rest.filter fun m => getParentToolUseId m == some t2).length = 2) :
    ∃ g1 g2, groupMessages (m0 :: rest) = [.subagent g1, .subagent g2] ∧
      g1.taskToolUseId = t1 ∧ g1.taskMessage = m0 ∧
      g1.subagentMessages = rest.filter (fun m => getParentToolUseId m == some t1) ∧
      g2.taskToolUseId = t2 ∧ g2.taskMessage = m0 ∧
      g2.subagentMessages = rest.filter (fun m => getParentToolUseId m == some t2) := by
  have hrest1 : ∀ m ∈ rest, extractTaskToolUseIds m = [] := fun m hm => (hrest m hm).1
  have hc1' : (collectSubagentMessages (m0 :: rest) 0 t1).1.length > 0 := by
    rw [collect_scenario, hc1]
    omega
  have hc2' : (collectSubagentMessages (m0 :: rest) 0 t2).1.length > 0 := by
    rw [collect_scenario, hc2]
    omega
  refine ⟨{ id := t1, taskMessage := m0, taskToolUseId := t1
            subagentMessages := (collectSubagentMessages (m0 :: rest) 0 t1).1
            startIndex := 0, endIndex := (collectSubagentMessages (m0 :: rest) 0 t1).2
            subagentType := getAssoc t1 (buildTaskSubagentTypes ((m0 :: rest).enum)) },
          { id := t2, taskMessage := m0, taskToolUseId := t2
            subagentMessages := (collectSubagentMessages (m0 :: rest) 0 t2).1
            startIndex := 0, endIndex := (collectSubagentMessages (m0 :: rest) 0 t2).2
            subagentType := getAssoc t2 (buildTaskSubagentTypes ((m0 :: rest).enum)) },
          ?_, rfl, rfl, collect_scenario m0 rest t1, rfl, rfl, collect_scenario m0 rest t2⟩
  have hgm : groupMessages (m0 :: rest) = pass4 none
      (pass3 (buildSubagentGroups (m0 :: rest) (buildTaskMap (m0 :: rest).enum)
          (buildTaskSubagentTypes ((m0 :: rest).enum)))
        ((m0 :: rest).enum) []) := rfl
  rw [hgm, buildTaskMap_scenario m0 rest t1 t2 hids hne hrest1,
    buildSubagentGroups_scenario (m0 :: rest) m0 t1 t2 _ hne hc1' hc2']
  set G1 : SubagentGroup :=
    { id := t1, taskMessage := m0, taskToolUseId := t1
      subagentMessages := (collectSubagentMessages (m0 :: rest) 0 t1).1
      startIndex := 0, endIndex := (collectSubagentMessages (m0 :: rest) 0 t1).2
      subagentType := getAssoc t1 (buildTaskSubagentTypes ((m0 :: rest).enum)) } with hG1
  set G2 : SubagentGroup :=
    { id := t2, taskMessage := m0, taskToolUseId := t2
      subagentMessages := (collectSubagentMessages (m0 :: rest) 0 t2).1
      startIndex := 0, endIndex := (collectSubagentMessages (m0 :: rest) 0 t2).2
      subagentType := getAssoc t2 (buildTaskSubagentTypes ((m0 :: rest).enum)) } with hG2
  have henum : (m0 :: rest).enum = (0, m0) :: List.enumFrom 1 rest := rfl
  rw [henum, pass3_cons]
  simp only [hp0]
  rw [if_neg Bool.false_ne_true, hids]
  rw [if_neg (by simp : ¬(([t1, t2] : List String).isEmpty = true))]
  have hsf : [t1, t2].foldl (spawnStep [(t1, G1), (t2, G2)]) ([], [])
      = ([.subagent G1, .subagent G2], [t2, t1]) := by
    simp [spawnStep, getAssoc, hne, List.contains, Ne.symm hne]
  rw [hsf]
  rw [if_pos (by simp [getAssoc] : ([t1, t2].any fun tid =>
    (getAssoc tid [(t1, G1), (t2, G2)]).isSome) = true)]
  rw [pass3_all_skipped [(t1, G1), (t2, G2)] (List.enumFrom 1 rest) [t2, t1] ?hskip]
  case hskip =>
    intro p hp
    have hmem := snd_mem_enumFrom hp
    rcases (hrest p.2 hmem).2 with h | h
    · exact ⟨t1, h, by simp [getAssoc]⟩
    · exact ⟨t2, h, by simp [getAssoc, hne]⟩
  rfl

/-- Witness for C5 at the concrete parallel-spawn scenario. -/
theorem parallel_spawn_grouping_witness :
    extractTaskToolUseIds spawn2Msg = ["t1", "t2"] ∧
    ("t1" : String) ≠ "t2" ∧
    (c5Rest.filter fun m => getParentToolUseId m == some "t1").length = 3 ∧
    (c5Rest.filter fun m => getParentToolUseId m == some "t2").length = 2 ∧
    (∃ g1 g2, groupMessages (spawn2Msg :: c5Rest) = [.subagent g1, .subagent g2] ∧
      g1.taskToolUseId = "t1" ∧ g1.taskMessage = spawn2Msg ∧
      g1.subagentMessages = c5Rest.filter (fun m => getParentToolUseId m == some "t1") ∧
      g2.taskToolUseId = "t2" ∧ g2.taskMessage = spawn2Msg ∧
      g2.subagentMessages = c5Rest.filter (fun m => getParentToolUseId m == some "t2")) :=
  ⟨by decide, by decide, by decide, by decide,
    parallel_spawn_grouping spawn2Msg c5Rest "t1" "t2" (by decide) (by decide) (by decide)
      (by decide) (by decide) (by decide)⟩

end AnyCode
